import Mathlib

/-!
Verification of the MiniPascal code generator (src/codegenerator.cpp).

The development shallowly embeds the instruction-emitting AST visitor of
the code generator: the typed AST produced by the semantic analyzer, the
symbol-table interface it consumes, and the visitor functions that emit
VM instructions.  The instruction stream is modelled as a structured list
of instructions (one constructor per mnemonic, integer operands as Int,
labels as the exact strings the generator builds).  Fatal errors
(C++ exceptions) are modelled with an error value that carries the
generator state at the point of failure, mirroring the fact that the
member output stream retains everything emitted before a throw while the
exception aborts the whole generation run.
-/

set_option maxHeartbeats 1000000

namespace MiniPascalCG

/-- EntryTypeCategory from the symbol-table interface (values used by
src/codegenerator.cpp). -/
inductive EntryTypeCategory where
  | PRIMITIVE_INTEGER
  | PRIMITIVE_REAL
  | PRIMITIVE_BOOLEAN
  | ARRAY
  | UNKNOWN_TYPE
  deriving DecidableEq, Repr

/-- SymbolKind from the symbol-table interface. -/
inductive SymbolKind where
  | VARIABLE
  | PARAMETER
  | FUNCTION
  | PROCEDURE
  deriving DecidableEq, Repr

/-- SymbolScope annotation attached to AST variable references by the
semantic pass. -/
inductive SymbolScope where
  | GLOBAL_SCOPE
  | LOCAL_SCOPE
  deriving DecidableEq, Repr

/-- ArrayDetails record stored in symbol entries. -/
structure ArrayDetails where
  elementType : EntryTypeCategory
  lowBound : Int
  highBound : Int
  isInitialized : Bool
  deriving DecidableEq, Repr

def ArrayDetails.none : ArrayDetails :=
  ⟨EntryTypeCategory.UNKNOWN_TYPE, 0, 0, false⟩

/-- SymbolEntry as consumed by the code generator: name, kind, type,
storage offset, array details, mangled name, parameter count and
function return type.  Fields not set by a given construction site keep
their defaults, as in the C++ constructor taking (name, kind, type,
line, column). -/
structure SymbolEntry where
  name : String
  kind : SymbolKind
  type : EntryTypeCategory := EntryTypeCategory.UNKNOWN_TYPE
  offset : Int := 0
  arrayDetails : ArrayDetails := ArrayDetails.none
  mangledName : String := ""
  numParameters : Int := 0
  functionReturnType : EntryTypeCategory := EntryTypeCategory.UNKNOWN_TYPE
  line : Nat := 0
  column : Nat := 0
  deriving DecidableEq, Repr

/-- getMangledName of a symbol entry. -/
def SymbolEntry.getMangledName (e : SymbolEntry) : String := e.mangledName

/-- StandardTypeNode categories. -/
inductive StandardTypeCategory where
  | TYPE_INTEGER
  | TYPE_REAL
  | TYPE_BOOLEAN
  deriving DecidableEq, Repr

/-- TypeNode: StandardTypeNode or ArrayTypeNode.  The bounds of an
ArrayTypeNode are the values of its startIndex/endIndex IntNumNodes,
which the generator dereferences unconditionally, so they are modelled
as plain integers; elementType may be absent (null). -/
inductive TypeNode where
  | standardType (category : StandardTypeCategory)
  | arrayType (elementType : Option StandardTypeCategory) (startIndex endIndex : Int)
  deriving DecidableEq, Repr

/-- IdentifierNode: a name with a source position. -/
structure Ident where
  name : String
  line : Nat := 0
  column : Nat := 0
  deriving DecidableEq, Repr

/-- Expression nodes of the typed AST.  Every node carries the
determinedType annotation placed by the semantic analyzer; call nodes
carry the resolved symbol-table entry (or none when unresolved). -/
inductive Expr where
  | intNum (value : Int) (determinedType : EntryTypeCategory)
  | realNum (value : String) (determinedType : EntryTypeCategory)
  | booleanLiteral (value : Bool) (determinedType : EntryTypeCategory)
  | stringLiteral (value : String) (determinedType : EntryTypeCategory)
  | varNode (identifier : String) (index : Option Expr) (scope : SymbolScope)
      (offset : Int) (determinedType : EntryTypeCategory)
  | idExpr (ident : String) (kind : SymbolKind) (scope : SymbolScope)
      (determinedType : EntryTypeCategory)
  | functionCall (funcName : String) (resolved_entry : Option SymbolEntry)
      (arguments : List Expr) (determinedType : EntryTypeCategory)
  | binaryOp (op : String) (left right : Expr) (determinedType : EntryTypeCategory)
  | unaryOp (op : String) (expression : Expr) (determinedType : EntryTypeCategory)

/-- The determinedType annotation of an expression node. -/
def Expr.determinedType : Expr → EntryTypeCategory
  | .intNum _ dt => dt
  | .realNum _ dt => dt
  | .booleanLiteral _ dt => dt
  | .stringLiteral _ dt => dt
  | .varNode _ _ _ _ dt => dt
  | .idExpr _ _ _ dt => dt
  | .functionCall _ _ _ dt => dt
  | .binaryOp _ _ _ dt => dt
  | .unaryOp _ _ dt => dt

/-- Statement nodes.  A ProcedureCallStatementNode carries the resolved
entry attached by the semantic analyzer (none when unresolved); an
AssignStatementNode stores an arbitrary expression as its target (the
generator narrows it to a VariableNode and silently emits nothing for
other shapes, exactly as the dynamic_cast-guarded C++ body does). -/
inductive Stmt where
  | assign (target : Expr) (expression : Expr)
  | compound (stmts : List Stmt)
  | ifStmt (condition : Expr) (thenStatement : Stmt) (elseStatement : Option Stmt)
  | whileStmt (condition : Expr) (body : Stmt)
  | procedureCall (procName : String) (resolved_entry : Option SymbolEntry)
      (arguments : List Expr)
  | returnStmt (returnValue : Option Expr)

/-- ParameterDeclaration: a group of identifiers sharing one type. -/
structure ParameterDeclaration where
  ids : List Ident
  type : TypeNode
  deriving DecidableEq, Repr

/-- SubprogramHead: FunctionHeadNode or ProcedureHeadNode, with the
ArgumentsNode -> ParameterList chain flattened to an optional list of
parameter declaration groups. -/
structure SubprogramHead where
  isFunction : Bool
  name : String
  arguments : Option (List ParameterDeclaration)
  deriving DecidableEq, Repr

/-- VarDecl: a group of identifiers sharing one declared type. -/
structure VarDecl where
  identifiers : List Ident
  type : TypeNode
  deriving DecidableEq, Repr

/-- Declarations: the list of variable declaration groups. -/
structure Declarations where
  var_decl_items : List VarDecl
  deriving DecidableEq, Repr

/-- SubprogramDeclaration: head, local declarations and body. -/
structure SubprogramDeclaration where
  head : SubprogramHead
  local_declarations : Option Declarations
  body : Option Stmt

/-- ProgramNode: subprograms, global declarations, main body. -/
structure ProgramNode where
  subprogs : Option (List SubprogramDeclaration)
  decls : Option Declarations
  mainCompoundStmt : Option Stmt

/-- One emitted VM instruction.  Operands that the generator prints with
std::to_string of an int are Int; label operands are the exact strings
the generator builds; pushf/pushs operands keep their printed text (the
rendering of string literals adds the surrounding quotes). -/
inductive Instr where
  | start
  | stop
  | jump (target : String)
  | jz (target : String)
  | pushi (value : Int)
  | pushf (value : String)
  | pushs (value : String)
  | pushn (count : Int)
  | pushg (offset : Int)
  | pushl (offset : Int)
  | storeg (offset : Int)
  | storel (offset : Int)
  | pusha (target : String)
  | call
  | ret
  | pop (count : Int)
  | alloc (size : Int)
  | load (offset : Int)
  | store (offset : Int)
  | loadn
  | storen
  | add | sub | mul | div
  | fadd | fsub | fmul | fdiv
  | equal | not
  | inf | infeq | sup | supeq
  | finf | finfeq | fsup | fsupeq
  | itof
  | writes | writei | writef
  | swap
  | label (name : String)
  deriving DecidableEq, Repr

/-- Generator state: the label counter, the symbol-table scope stack,
the local/parameter offset counters, the current-subprogram context and
the instruction stream emitted so far. -/
structure GenSt where
  labelCounter : Nat
  symtab : List (List SymbolEntry)
  local_offset : Int
  param_offset : Int
  currentSubprogramEntry : Option SymbolEntry
  code : List Instr
  deriving DecidableEq, Repr

/-- Result of a generation step: the updated state, or a fatal error
message together with the state (emitted stream included) at the point
of the throw. -/
abbrev GRes := Except (String × GenSt) GenSt

/-- emit: append one instruction to the stream. -/
def emitI (st : GenSt) (i : Instr) : GenSt :=
  { st with code := st.code ++ [i] }

/-- emit a sequence of instructions in order. -/
def emits (st : GenSt) (l : List Instr) : GenSt :=
  l.foldl emitI st

/-- emitLabel: append a label line to the stream. -/
def emitLabel (st : GenSt) (l : String) : GenSt :=
  emitI st (Instr.label l)

/-- newLabel: build the string from the monotonically increasing counter
and bump the counter. -/
def newLabel (pfx : String) (st : GenSt) : String × GenSt :=
  ("L_" ++ pfx ++ "_" ++ Nat.repr st.labelCounter,
   { st with labelCounter := st.labelCounter + 1 })

/-- Modelled from the spec: the symbol table is an external collaborator
(its implementation is not in src/); lookup within one scope returns the
first entry with the requested name. -/
def lookupScope : List SymbolEntry → String → Option SymbolEntry
  | [], _ => Option.none
  | e :: rest, n => if e.name = n then some e else lookupScope rest n

/-- Modelled from the spec: lookup-by-name, innermost scope first
(spec section 2: "lookup-by-name (innermost-first)"). -/
def lookupSymbol : List (List SymbolEntry) → String → Option SymbolEntry
  | [], _ => Option.none
  | s :: rest, n =>
    match lookupScope s n with
    | some e => some e
    | Option.none => lookupSymbol rest n

/-- Modelled from the spec: addSymbol inserts an entry into the
innermost (current) scope. -/
def addSymbol (tab : List (List SymbolEntry)) (e : SymbolEntry) :
    List (List SymbolEntry) :=
  match tab with
  | [] => [[e]]
  | s :: rest => (s ++ [e]) :: rest

/-- Modelled from the spec: enterScope pushes a fresh empty scope. -/
def enterScope (tab : List (List SymbolEntry)) : List (List SymbolEntry) :=
  [] :: tab

/-- Modelled from the spec: exitScope pops the innermost scope. -/
def exitScope (tab : List (List SymbolEntry)) : List (List SymbolEntry) :=
  tab.tail

/-- Modelled from the spec: isGlobalScope holds when only the global
scope is open. -/
def isGlobalScope (tab : List (List SymbolEntry)) : Bool :=
  tab.length = 1

/-- astToSymbolType: map a TypeNode to its EntryTypeCategory and fill
the ArrayDetails out-parameter (returned here as the second component).
Because the array bounds are modelled as plain integers (the generator
dereferences them unconditionally), the isInitialized flag is set for
every ArrayTypeNode. -/
def astToSymbolType : TypeNode → EntryTypeCategory × ArrayDetails
  | .standardType c =>
    (match c with
     | .TYPE_INTEGER => EntryTypeCategory.PRIMITIVE_INTEGER
     | .TYPE_REAL => EntryTypeCategory.PRIMITIVE_REAL
     | .TYPE_BOOLEAN => EntryTypeCategory.PRIMITIVE_BOOLEAN,
     ArrayDetails.none)
  | .arrayType et lo hi =>
    let elemT :=
      match et with
      | some .TYPE_INTEGER => EntryTypeCategory.PRIMITIVE_INTEGER
      | some .TYPE_REAL => EntryTypeCategory.PRIMITIVE_REAL
      | some .TYPE_BOOLEAN => EntryTypeCategory.PRIMITIVE_BOOLEAN
      | Option.none => EntryTypeCategory.UNKNOWN_TYPE
    (EntryTypeCategory.ARRAY,
     { elementType := elemT, lowBound := lo, highBound := hi, isInitialized := true })

/-- The one-letter code a parameter type contributes to a mangled key. -/
def typeCode : EntryTypeCategory → String
  | .PRIMITIVE_INTEGER => "i"
  | .PRIMITIVE_REAL => "r"
  | .PRIMITIVE_BOOLEAN => "b"
  | .ARRAY => "a"
  | .UNKNOWN_TYPE => "u"

/-- The mangled key the generator reconstructs from a subprogram head:
"f_"/"p_" plus the name, then one "_" plus a type code per declared
parameter identifier, in declaration order. -/
def mangledKeyFor (head : SubprogramHead) : String :=
  let base := (if head.isFunction then "f_" else "p_") ++ head.name
  match head.arguments with
  | Option.none => base
  | some groups =>
    groups.foldl
      (fun acc g =>
        let t := (astToSymbolType g.type).1
        g.ids.foldl (fun acc2 _ => acc2 ++ "_" ++ typeCode t) acc)
      base

/-- is_real_op for a binary operation: some operand real, or the
operator is "/"; logical AND/OR are forced to the integer variant. -/
def isRealOp (op : String) (lt rt : EntryTypeCategory) : Bool :=
  let v : Bool :=
    decide (lt = EntryTypeCategory.PRIMITIVE_REAL ∨
            rt = EntryTypeCategory.PRIMITIVE_REAL ∨ op = "/")
  if op = "AND_OP" ∨ op = "OR_OP" then false else v

/-- The instruction tail emitted for a binary operator (the if-else
chain at the end of visit(BinaryOpNode)); none for an unsupported
operator. -/
def binOpInstrs (op : String) (is_real_op : Bool) : Option (List Instr) :=
  if op = "+" then some [if is_real_op then Instr.fadd else Instr.add]
  else if op = "-" then some [if is_real_op then Instr.fsub else Instr.sub]
  else if op = "*" then some [if is_real_op then Instr.fmul else Instr.mul]
  else if op = "/" then some [Instr.fdiv]
  else if op = "DIV_OP" then some [Instr.div]
  else if op = "EQ_OP" then some [Instr.equal]
  else if op = "NEQ_OP" then some [Instr.equal, Instr.not]
  else if op = "LT_OP" then some [if is_real_op then Instr.finf else Instr.inf]
  else if op = "LTE_OP" then some [if is_real_op then Instr.finfeq else Instr.infeq]
  else if op = "GT_OP" then some [if is_real_op then Instr.fsup else Instr.sup]
  else if op = "GTE_OP" then some [if is_real_op then Instr.fsupeq else Instr.supeq]
  else if op = "AND_OP" then some [Instr.mul]
  else if op = "OR_OP" then some [Instr.add, Instr.pushi 0, Instr.sup]
  else Option.none

mutual

/-- visit for expression nodes (IntNumNode, RealNumNode,
BooleanLiteralNode, StringLiteralNode, VariableNode, IdExprNode,
FunctionCallExprNode, BinaryOpNode, UnaryOpNode). -/
def genExpr : Expr → GenSt → GRes
  | .intNum v _, st => .ok (emitI st (Instr.pushi v))
  | .realNum v _, st => .ok (emitI st (Instr.pushf v))
  | .booleanLiteral b _, st =>
    .ok (emitI st (Instr.pushi (if b then 1 else 0)))
  | .stringLiteral s _, st => .ok (emitI st (Instr.pushs s))
  | .varNode ident idx scope _ _, st =>
    match lookupSymbol st.symtab ident with
    | Option.none => .error ("CodeGen: Symbol not found: " ++ ident, st)
    | some entry =>
      if entry.kind = SymbolKind.PARAMETER then
        .ok (emitI st (Instr.pushl (-(entry.offset + 1))))
      else
        match idx with
        | some ie =>
          if entry.arrayDetails.isInitialized = false then
            .error ("CodeGen: Array details not found for " ++ ident, st)
          else
            let lowerBound := entry.arrayDetails.lowBound
            let st1 :=
              if scope = SymbolScope.LOCAL_SCOPE then
                emitI st (Instr.pushl entry.offset)
              else emitI st (Instr.pushg entry.offset)
            match ie with
            | .intNum v _ => .ok (emitI st1 (Instr.load (v - lowerBound)))
            | _ => do
              let st2 ← genExpr ie st1
              .ok (emits st2 [Instr.pushi lowerBound, Instr.sub, Instr.loadn])
        | Option.none =>
          if scope = SymbolScope.LOCAL_SCOPE then
            .ok (emitI st (Instr.pushl entry.offset))
          else .ok (emitI st (Instr.pushg entry.offset))
  | .idExpr ident kind scope _, st =>
    if kind = SymbolKind.FUNCTION then
      .ok (emits st [Instr.pushn 1, Instr.pusha ("f_" ++ ident), Instr.call])
    else
      match lookupSymbol st.symtab ident with
      | Option.none =>
        .error ("CodeGen: Symbol not found for identifier: " ++ ident, st)
      | some entry =>
        if entry.kind = SymbolKind.PARAMETER then
          .ok (emitI st (Instr.pushl (-(entry.offset + 1))))
        else if scope = SymbolScope.LOCAL_SCOPE then
          .ok (emitI st (Instr.pushl entry.offset))
        else .ok (emitI st (Instr.pushg entry.offset))
  | .functionCall fname resolved args _, st =>
    match resolved with
    | Option.none =>
      .error ("CodeGen Error: Function call to " ++ fname ++
              " was not resolved by semantic analyzer.", st)
    | some entry => do
      let st1 := emitI st (Instr.pushn 1)
      let st2 ← genExprListRev args st1
      let st3 := emits st2 [Instr.pusha entry.getMangledName, Instr.call]
      if entry.numParameters > 0 then
        .ok (emitI st3 (Instr.pop entry.numParameters))
      else .ok st3
  | .binaryOp op l r _, st => do
    let is_real_op := isRealOp op l.determinedType r.determinedType
    let st1 ← genExpr l st
    let st2 :=
      if is_real_op ∧ l.determinedType = EntryTypeCategory.PRIMITIVE_INTEGER then
        emitI st1 Instr.itof
      else st1
    let st3 ← genExpr r st2
    let st4 :=
      if is_real_op ∧ r.determinedType = EntryTypeCategory.PRIMITIVE_INTEGER then
        emitI st3 Instr.itof
      else st3
    match binOpInstrs op is_real_op with
    | some tail => .ok (emits st4 tail)
    | Option.none => .error ("CodeGen: Unsupported binary op " ++ op, st4)
  | .unaryOp op e _, st => do
    let st1 ← genExpr e st
    if op = "-" then
      if e.determinedType = EntryTypeCategory.PRIMITIVE_REAL then
        .ok (emits st1 [Instr.pushf "0.0", Instr.swap, Instr.fsub])
      else
        .ok (emits st1 [Instr.pushi 0, Instr.swap, Instr.sub])
    else if op = "NOT_OP" then .ok (emitI st1 Instr.not)
    else .ok st1

/-- Evaluation of a call argument list in reverse declaration order
(rightmost first), as the rbegin/rend loop does. -/
def genExprListRev : List Expr → GenSt → GRes
  | [], st => .ok st
  | e :: rest, st => do
    let st1 ← genExprListRev rest st
    genExpr e st1

/-- The per-argument loop of the write/writeln intrinsic lowering. -/
def genWriteArgs : List Expr → GenSt → GRes
  | [], st => .ok st
  | e :: rest, st => do
    let st1 ← genExpr e st
    let st2 :=
      match e with
      | .stringLiteral _ _ => emitI st1 Instr.writes
      | _ =>
        if e.determinedType = EntryTypeCategory.PRIMITIVE_INTEGER ∨
           e.determinedType = EntryTypeCategory.PRIMITIVE_BOOLEAN then
          emitI st1 Instr.writei
        else if e.determinedType = EntryTypeCategory.PRIMITIVE_REAL then
          emitI st1 Instr.writef
        else st1
    genWriteArgs rest st2

end

mutual

/-- visit for statement nodes (AssignStatementNode,
CompoundStatementNode, IfStatementNode, WhileStatementNode,
ProcedureCallStatementNode, ReturnStatementNode). -/
def genStmt : Stmt → GenSt → GRes
  | .assign tgt expr, st =>
    match tgt with
    | .varNode ident idx scope off dt =>
      match idx with
      | some ie =>
        match lookupSymbol st.symtab ident with
        | Option.none =>
          .error ("CodeGen: Array symbol not found: " ++ ident, st)
        | some arrayEntry =>
          let lowerBound := arrayEntry.arrayDetails.lowBound
          let st1 :=
            if scope = SymbolScope.LOCAL_SCOPE then emitI st (Instr.pushl off)
            else emitI st (Instr.pushg off)
          match ie with
          | .intNum v _ => do
            let st2 ← genExpr expr st1
            .ok (emitI st2 (Instr.store (v - lowerBound)))
          | _ => do
            let st2 ← genExpr ie st1
            let st3 := emits st2 [Instr.pushi lowerBound, Instr.sub]
            let st4 ← genExpr expr st3
            .ok (emitI st4 Instr.storen)
      | Option.none => do
        let st1 ← genExpr expr st
        let st2 :=
          if dt = EntryTypeCategory.PRIMITIVE_REAL ∧
             expr.determinedType = EntryTypeCategory.PRIMITIVE_INTEGER then
            emitI st1 Instr.itof
          else st1
        match lookupSymbol st2.symtab ident with
        | Option.none =>
          .error ("CodeGen: Symbol not found in assignment: " ++ ident, st2)
        | some entry =>
          if entry.kind = SymbolKind.PARAMETER then
            .ok (emitI st2 (Instr.storel (-(entry.offset + 1))))
          else if scope = SymbolScope.LOCAL_SCOPE then
            .ok (emitI st2 (Instr.storel entry.offset))
          else .ok (emitI st2 (Instr.storeg entry.offset))
    | _ => .ok st
  | .compound stmts, st => genStmtList stmts st
  | .ifStmt cond thenS Option.none, st =>
    let p1 := newLabel "ELSE" st
    let p2 := newLabel "END_IF" p1.2
    do
      let st1 ← genExpr cond p2.2
      let st2 := emitI st1 (Instr.jz p1.1)
      let st3 ← genStmt thenS st2
      let st5 := emitLabel st3 p1.1
      .ok (emitLabel st5 p2.1)
  | .ifStmt cond thenS (some es), st =>
    let p1 := newLabel "ELSE" st
    let p2 := newLabel "END_IF" p1.2
    do
      let st1 ← genExpr cond p2.2
      let st2 := emitI st1 (Instr.jz p1.1)
      let st3 ← genStmt thenS st2
      let st4 := emitI st3 (Instr.jump p2.1)
      let st5 := emitLabel st4 p1.1
      let st6 ← genStmt es st5
      .ok (emitLabel st6 p2.1)
  | .whileStmt cond body, st =>
    let p1 := newLabel "WHILE_START" st
    let p2 := newLabel "WHILE_END" p1.2
    do
      let st1 := emitLabel p2.2 p1.1
      let st2 ← genExpr cond st1
      let st3 := emitI st2 (Instr.jz p2.1)
      let st4 ← genStmt body st3
      .ok (emitLabel (emitI st4 (Instr.jump p1.1)) p2.1)
  | .procedureCall procName resolved args, st =>
    if procName = "write" ∨ procName = "writeln" then do
      let st1 ← genWriteArgs args st
      if procName = "writeln" then
        .ok (emits st1 [Instr.pushs "\n", Instr.writes])
      else .ok st1
    else if procName = "read" ∨ procName = "readln" then .ok st
    else
      match resolved with
      | Option.none =>
        .error ("CodeGen Error: Procedure call to " ++ procName ++
                " was not resolved by semantic analyzer.", st)
      | some entry => do
        let st1 ← genExprListRev args st
        let st2 := emits st1 [Instr.pusha entry.getMangledName, Instr.call]
        if entry.numParameters > 0 then
          .ok (emitI st2 (Instr.pop entry.numParameters))
        else .ok st2
  | .returnStmt rv, st =>
    match rv with
    | some e =>
      match st.currentSubprogramEntry with
      | Option.none =>
        .error ("CodeGen: Return statement found with no subprogram context.", st)
      | some entry => do
        let num_params := entry.numParameters
        let st1 ← genExpr e st
        let st2 :=
          if entry.functionReturnType = EntryTypeCategory.PRIMITIVE_REAL ∧
             e.determinedType = EntryTypeCategory.PRIMITIVE_INTEGER then
            emitI st1 Instr.itof
          else st1
        .ok (emits st2 [Instr.storel (-(num_params + 1)), Instr.ret])
    | Option.none => .ok (emitI st Instr.ret)

/-- visit for StatementList. -/
def genStmtList : List Stmt → GenSt → GRes
  | [], st => .ok st
  | s :: rest, st => do
    let st1 ← genStmt s st
    genStmtList rest st1

end

/-- Whether a TypeNode is an ArrayTypeNode (the dynamic_cast test). -/
def isArrayTypeNode : TypeNode → Bool
  | .arrayType _ _ _ => true
  | _ => false

/-- The per-identifier array allocation loop of visit(VarDecl). -/
def genArrayAllocs : List Ident → Int → GenSt → GRes
  | [], _, st => .ok st
  | id :: rest, size, st =>
    match lookupSymbol st.symtab id.name with
    | Option.none =>
      .error ("CodeGen: Symbol not found during array allocation: " ++ id.name, st)
    | some entry =>
      let st1 := emitI st (Instr.alloc size)
      let st2 :=
        if isGlobalScope st1.symtab then emitI st1 (Instr.storeg entry.offset)
        else emitI st1 (Instr.storel entry.offset)
      genArrayAllocs rest size st2

/-- visit for VarDecl: local non-array bulk reservation, then array
allocation with the positive-size check. -/
def genVarDecl (node : VarDecl) (st : GenSt) : GRes :=
  let var_type := (astToSymbolType node.type).1
  let st0 :=
    if isGlobalScope st.symtab then st
    else
      let varCount : Int :=
        if var_type = EntryTypeCategory.ARRAY then 0
        else (node.identifiers.length : Int)
      if varCount > 0 then emitI st (Instr.pushn varCount) else st
  match node.type with
  | .arrayType _ lo hi =>
    let size := hi - lo + 1
    if size ≤ 0 then .error ("Array size must be positive.", st0)
    else genArrayAllocs node.identifiers size st0
  | _ => .ok st0

/-- The loop over VarDecl items of visit(Declarations). -/
def genVarDecls : List VarDecl → GenSt → GRes
  | [], st => .ok st
  | d :: rest, st => do
    let st1 ← genVarDecl d st
    genVarDecls rest st1

/-- visit for Declarations: at global scope, the bulk reservation of all
non-array identifiers, then the per-declaration code. -/
def genDeclarations (node : Declarations) (st : GenSt) : GRes :=
  let st0 :=
    if isGlobalScope st.symtab then
      if node.var_decl_items = [] then st
      else
        let varCount : Int :=
          node.var_decl_items.foldl
            (fun acc d =>
              if isArrayTypeNode d.type then acc
              else acc + (d.identifiers.length : Int))
            0
        if varCount > 0 then emitI st (Instr.pushn varCount) else st
    else st
  genVarDecls node.var_decl_items st0

/-- The PARAMETER entry created for one identifier: the SymbolEntry
constructor call, the offset assignment from the running counter, and
the arrayDetails copy for array-typed parameters. -/
def mkParamEntry (tp : EntryTypeCategory) (ad : ArrayDetails) (ident : Ident)
    (off : Int) : SymbolEntry :=
  { name := ident.name, kind := SymbolKind.PARAMETER, type := tp,
    offset := off,
    arrayDetails := if tp = EntryTypeCategory.ARRAY then ad else ArrayDetails.none,
    line := ident.line, column := ident.column }

/-- The per-identifier loop of visit(ParameterDeclaration). -/
def addParams (tp : EntryTypeCategory) (ad : ArrayDetails) :
    List Ident → GenSt → GenSt
  | [], st => st
  | ident :: rest, st =>
    addParams tp ad rest
      { st with symtab := addSymbol st.symtab (mkParamEntry tp ad ident st.param_offset),
                param_offset := st.param_offset + 1 }

/-- visit for ParameterDeclaration: re-create one PARAMETER entry per
identifier in the current scope, assigning offsets from the running
param_offset counter. -/
def genParameterDeclaration (node : ParameterDeclaration) (st : GenSt) : GenSt :=
  let pr := astToSymbolType node.type
  addParams pr.1 pr.2 node.ids st

/-- visit for ParameterList. -/
def genParameterList : List ParameterDeclaration → GenSt → GenSt
  | [], st => st
  | p :: rest, st => genParameterList rest (genParameterDeclaration p st)

/-- visit for ArgumentsNode (the params list may be absent). -/
def genArguments (args : Option (List ParameterDeclaration)) (st : GenSt) : GenSt :=
  match args with
  | some l => genParameterList l st
  | Option.none => st

/-- The null-guarded visit of the optional local declarations
(the C++ "if (node.local_declarations) ... accept" line). -/
def genDeclarationsOpt : Option Declarations → GenSt → GRes
  | some d, st => genDeclarations d st
  | Option.none, st => .ok st

/-- The null-guarded visit of an optional statement subtree. -/
def genStmtOpt : Option Stmt → GenSt → GRes
  | some s, st => genStmt s st
  | Option.none, st => .ok st

/-- visit for SubprogramDeclaration: resolve the entry by the recomputed
mangled key, emit the jump-over and the entry label, enter a fresh scope
with reset offset counters, generate parameters, local declarations and
body, append the unconditional return for procedures, emit the end
label, and restore scope and context. -/
def genSubprogramDeclaration (node : SubprogramDeclaration) (st : GenSt) : GRes :=
  let mangledKey := mangledKeyFor node.head
  match lookupSymbol st.symtab mangledKey with
  | Option.none =>
    .error ("CodeGen: Could not find symbol table entry for subprogram: " ++
            node.head.name, st)
  | some entry =>
    let previousEntry := st.currentSubprogramEntry
    let mangledName := entry.getMangledName
    let endLabel := mangledName ++ "_end"
    let st1 := emitLabel (emitI { st with currentSubprogramEntry := some entry }
                            (Instr.jump endLabel)) mangledName
    let st2 := { st1 with symtab := enterScope st1.symtab,
                          local_offset := 0, param_offset := 0 }
    let st3 := genArguments node.head.arguments st2
    do
      let st4 ← genDeclarationsOpt node.local_declarations st3
      let st5 ← genStmtOpt node.body st4
      let st6 := if node.head.isFunction then st5 else emitI st5 Instr.ret
      let st7 := emitLabel st6 endLabel
      .ok { st7 with symtab := exitScope st7.symtab,
                     currentSubprogramEntry := previousEntry }

/-- visit for SubprogramDeclarations. -/
def genSubprogramDeclarations : List SubprogramDeclaration → GenSt → GRes
  | [], st => .ok st
  | d :: rest, st => do
    let st1 ← genSubprogramDeclaration d st
    genSubprogramDeclarations rest st1

/-- The null-guarded visit of the optional subprogram list. -/
def genSubprogramDeclarationsOpt : Option (List SubprogramDeclaration) → GenSt → GRes
  | some l, st => genSubprogramDeclarations l st
  | Option.none, st => .ok st

/-- visit for ProgramNode: start, the jump over the subprogram blocks
when any exist, the subprogram blocks, the main_entry label, global
declarations, the main compound statement, stop. -/
def genProgram (node : ProgramNode) (st : GenSt) : GRes :=
  let st1 := emitI st Instr.start
  let st2 :=
    match node.subprogs with
    | some l => if l.isEmpty then st1 else emitI st1 (Instr.jump "main_entry")
    | Option.none => st1
  do
    let st3 ← genSubprogramDeclarationsOpt node.subprogs st2
    let st4 := emitLabel st3 "main_entry"
    let st5 ← genDeclarationsOpt node.decls st4
    let st6 ← genStmtOpt node.mainCompoundStmt st5
    .ok (emitI st6 Instr.stop)

/-! ## Label infrastructure

The emitted label lines of an instruction stream, the shape of
counter-generated labels, and injectivity of the decimal rendering used
by newLabel. -/

/-- The label strings emitted (as label definition lines) in a stream,
in emission order. -/
def labelsOf : List Instr → List String
  | [] => []
  | Instr.label l :: rest => l :: labelsOf rest
  | _ :: rest => labelsOf rest

/-- The string newLabel builds from a prefix and a counter value. -/
def ctrLabel (pfx : String) (n : Nat) : String :=
  "L_" ++ pfx ++ "_" ++ Nat.repr n

/-- The prefixes the generator passes to newLabel. -/
def ctrPrefixes : List String := ["ELSE", "END_IF", "WHILE_START", "WHILE_END"]

/-- A state whose stream has been extended by a delta. -/
def withCode (st : GenSt) (Δ : List Instr) : GenSt :=
  { st with code := st.code ++ Δ }

theorem labelsOf_append (a b : List Instr) :
    labelsOf (a ++ b) = labelsOf a ++ labelsOf b := by
  induction a with
  | nil => rfl
  | cons i rest ih => cases i <;> simp [labelsOf, ih]

theorem emitI_eq (st : GenSt) (i : Instr) : emitI st i = withCode st [i] := rfl

theorem emits_eq (st : GenSt) (l : List Instr) : emits st l = withCode st l := by
  induction l generalizing st with
  | nil => simp [emits, withCode]
  | cons i rest ih =>
    simp [emits] at ih ⊢
    rw [ih]
    simp [emitI, withCode]

theorem withCode_withCode (st : GenSt) (a b : List Instr) :
    withCode (withCode st a) b = withCode st (a ++ b) := by
  simp [withCode]

theorem withCode_code (st : GenSt) (a : List Instr) :
    (withCode st a).code = st.code ++ a := rfl

theorem toDigitsCore_digits :
    ∀ (fuel n : Nat) (ds : List Char), 0 < n → n ≤ fuel →
      Nat.toDigitsCore 10 fuel n ds =
        ((Nat.digits 10 n).map Nat.digitChar).reverse ++ ds := by
  intro fuel
  induction fuel with
  | zero => intro n ds hn hf; omega
  | succ fuel ih =>
    intro n ds hn hf
    rw [Nat.toDigitsCore]
    by_cases h : n / 10 = 0
    · have h10 : n < 10 := by omega
      rw [if_pos h]
      rw [Nat.digits_def' (by norm_num : (1:Nat) < 10) hn]
      rw [h, Nat.digits_zero]
      simp
    · rw [if_neg h]
      have hlt : n / 10 < n := Nat.div_lt_self hn (by norm_num)
      rw [ih (n / 10) _ (by omega) (by omega)]
      rw [Nat.digits_def' (by norm_num : (1:Nat) < 10) hn]
      simp

theorem repr_eq_digits (n : Nat) (hn : 0 < n) :
    Nat.repr n = (((Nat.digits 10 n).map Nat.digitChar).reverse).asString := by
  rw [Nat.repr, Nat.toDigits, toDigitsCore_digits (n+1) n [] hn (by omega)]
  simp

theorem digitChar_inj10 :
    ∀ a < 10, ∀ b < 10, Nat.digitChar a = Nat.digitChar b → a = b := by
  decide

theorem map_digitChar_inj :
    ∀ (l1 l2 : List Nat), (∀ x ∈ l1, x < 10) → (∀ x ∈ l2, x < 10) →
      l1.map Nat.digitChar = l2.map Nat.digitChar → l1 = l2 := by
  intro l1
  induction l1 with
  | nil => intro l2 _ _ h; cases l2 <;> simp_all
  | cons a t ih =>
    intro l2 h1 h2 h
    cases l2 with
    | nil => simp_all
    | cons b t2 =>
      simp only [List.map_cons, List.cons.injEq] at h
      have ha := h1 a (by simp)
      have hb := h2 b (by simp)
      have : a = b := digitChar_inj10 a ha b hb h.1
      subst this
      rw [ih t2 (fun x hx => h1 x (by simp [hx])) (fun x hx => h2 x (by simp [hx])) h.2]

theorem repr_zero_ne (m : Nat) (hm : 0 < m) : Nat.repr m ≠ "0" := by
  intro h
  rw [repr_eq_digits m hm] at h
  have hd : ((Nat.digits 10 m).map Nat.digitChar).reverse = ['0'] := by
    have := congrArg String.data h
    simpa [List.asString] using this
  have : (Nat.digits 10 m).map Nat.digitChar = ['0'] := by
    rw [← List.reverse_reverse ((Nat.digits 10 m).map Nat.digitChar), hd]
    rfl
  cases hdig : Nat.digits 10 m with
  | nil =>
    rw [hdig] at this; simp at this
  | cons d t =>
    rw [hdig] at this
    cases t with
    | cons _ _ => simp at this
    | nil =>
      simp only [List.map_cons, List.map_nil, List.cons.injEq] at this
      have hdlt : d < 10 := Nat.digits_lt_base (by norm_num) (by rw [hdig]; simp)
      have hd0 : d = 0 := by
        have := digitChar_inj10 d hdlt 0 (by norm_num) (by simpa using this.1)
        exact this
      have hzero : m = 0 := by
        have h2 := congrArg (Nat.ofDigits 10) hdig
        rw [Nat.ofDigits_digits, hd0] at h2
        simpa [Nat.ofDigits] using h2
      omega

theorem nat_repr_inj {n m : Nat} (h : Nat.repr n = Nat.repr m) : n = m := by
  rcases Nat.eq_zero_or_pos n with hn | hn
  · rcases Nat.eq_zero_or_pos m with hm | hm
    · omega
    · subst hn
      exact absurd h.symm (repr_zero_ne m hm)
  · rcases Nat.eq_zero_or_pos m with hm | hm
    · subst hm
      exact absurd h (repr_zero_ne n hn)
    · rw [repr_eq_digits n hn, repr_eq_digits m hm] at h
      have hd := congrArg String.data h
      simp only [List.asString] at hd
      have hrev : ((Nat.digits 10 n).map Nat.digitChar).reverse =
          ((Nat.digits 10 m).map Nat.digitChar).reverse := hd
      have hmap : (Nat.digits 10 n).map Nat.digitChar =
          (Nat.digits 10 m).map Nat.digitChar := by
        rw [← List.reverse_reverse ((Nat.digits 10 n).map Nat.digitChar), hrev,
          List.reverse_reverse]
      have hdig := map_digitChar_inj _ _
        (fun x hx => Nat.digits_lt_base (by norm_num) hx)
        (fun x hx => Nat.digits_lt_base (by norm_num) hx) hmap
      have := congrArg (Nat.ofDigits 10) hdig
      rwa [Nat.ofDigits_digits, Nat.ofDigits_digits] at this

theorem prefix_of_append_eq {xs ys us vs : List Char} (h : xs ++ us = ys ++ vs) :
    xs <+: ys ∨ ys <+: xs := by
  rcases List.append_eq_append_iff.mp h with ⟨a, ha, _⟩ | ⟨c, hc, _⟩
  · exact Or.inl ⟨a, ha.symm⟩
  · exact Or.inr ⟨c, hc.symm⟩

theorem ctr_core {P Q : String} {n m : Nat}
    (h : P ++ Nat.repr n = Q ++ Nat.repr m)
    (hpq : ¬ P.data <+: Q.data) (hqp : ¬ Q.data <+: P.data) : False := by
  have hd := congrArg String.data h
  rw [String.data_append, String.data_append] at hd
  rcases prefix_of_append_eq hd with hc | hc
  · exact hpq hc
  · exact hqp hc

theorem ctr_core_eq {P : String} {n m : Nat}
    (h : P ++ Nat.repr n = P ++ Nat.repr m) : n = m := by
  have hd := congrArg String.data h
  rw [String.data_append, String.data_append] at hd
  have := List.append_cancel_left hd
  exact nat_repr_inj (String.ext this)

theorem ctrLabel_form (p : String) (n : Nat) :
    ctrLabel p n = ("L_" ++ p ++ "_") ++ Nat.repr n := rfl

theorem ctrLabel_inj {p q : String} {n m : Nat}
    (hp : p ∈ ctrPrefixes) (hq : q ∈ ctrPrefixes)
    (h : ctrLabel p n = ctrLabel q m) : p = q ∧ n = m := by
  rw [ctrLabel_form, ctrLabel_form] at h
  fin_cases hp <;> fin_cases hq <;>
    first
      | (refine ⟨rfl, ctr_core_eq h⟩)
      | (exact absurd h (fun hh => ctr_core hh (by decide) (by decide)))

/-- Counter-label bookkeeping: the counter does not decrease, every
label in the list is a newLabel string with a counter value in the
half-open interval, and the list has no duplicates. -/
def LB (a b : Nat) (ls : List String) : Prop :=
  a ≤ b ∧
  (∀ l ∈ ls, ∃ p n, p ∈ ctrPrefixes ∧ l = ctrLabel p n ∧ a ≤ n ∧ n < b) ∧
  ls.Nodup

theorem LB_nil {a b : Nat} (h : a ≤ b) : LB a b [] :=
  ⟨h, by simp, List.nodup_nil⟩

theorem LB_mono {a b a' b' : Nat} {ls : List String} (h : LB a b ls)
    (ha : a' ≤ a) (hb : b ≤ b') : LB a' b' ls := by
  refine ⟨by have := h.1; omega, fun l hl => ?_, h.2.2⟩
  obtain ⟨p, n, hp, he, h1, h2⟩ := h.2.1 l hl
  exact ⟨p, n, hp, he, by omega, by omega⟩

theorem LB_disjoint {a b b' c : Nat} {xs ys : List String}
    (h1 : LB a b xs) (h2 : LB b' c ys) (hbb : b ≤ b') : ∀ x ∈ xs, x ∉ ys := by
  intro x hx hy
  obtain ⟨p, n, hp, he, hn1, hn2⟩ := h1.2.1 x hx
  obtain ⟨q, m, hq, he', hm1, hm2⟩ := h2.2.1 x hy
  have := ctrLabel_inj hp hq (he ▸ he')
  omega

theorem LB_append {a b c : Nat} {xs ys : List String}
    (h1 : LB a b xs) (h2 : LB b c ys) : LB a c (xs ++ ys) := by
  refine ⟨by have := h1.1; have := h2.1; omega, ?_, ?_⟩
  · intro l hl
    rcases List.mem_append.mp hl with h | h
    · obtain ⟨p, n, hp, he, hn1, hn2⟩ := h1.2.1 l h
      exact ⟨p, n, hp, he, by omega, by have := h2.1; omega⟩
    · obtain ⟨p, n, hp, he, hn1, hn2⟩ := h2.2.1 l h
      exact ⟨p, n, hp, he, by have := h1.1; omega, hn2⟩
  · exact List.Nodup.append h1.2.2 h2.2.2
      (fun x hx hy => LB_disjoint h1 h2 le_rfl x hx hy)


theorem ok_inv {x st' : GenSt} (h : (Except.ok x : GRes) = .ok st') : st' = x := by
  cases h; rfl

theorem eok_refl (s : GenSt) : ∃ Δ, s = withCode s Δ ∧ labelsOf Δ = [] :=
  ⟨[], by simp [withCode], rfl⟩

theorem eok_chain {st1 st2 st3 : GenSt}
    (H1 : ∃ Δ, st2 = withCode st1 Δ ∧ labelsOf Δ = [])
    (H2 : ∃ Δ, st3 = withCode st2 Δ ∧ labelsOf Δ = []) :
    ∃ Δ, st3 = withCode st1 Δ ∧ labelsOf Δ = [] := by
  obtain ⟨a, ha, hla⟩ := H1
  obtain ⟨b, hb, hlb⟩ := H2
  refine ⟨a ++ b, ?_, ?_⟩
  · rw [hb, ha, withCode_withCode]
  · rw [labelsOf_append, hla, hlb]; rfl

theorem eok_ite (c : Prop) [Decidable c] (s : GenSt) (i : Instr)
    (hi : labelsOf [i] = []) :
    ∃ Δ, (if c then emitI s i else s) = withCode s Δ ∧ labelsOf Δ = [] := by
  split
  · exact ⟨[i], rfl, hi⟩
  · exact eok_refl s

theorem emitI2_eq (st : GenSt) (a b : Instr) :
    emitI (emitI st a) b = withCode st [a, b] := by
  simp [emitI, withCode]

theorem binOpInstrs_labels (op : String) (b : Bool) (tail : List Instr)
    (h : binOpInstrs op b = some tail) : labelsOf tail = [] := by
  unfold binOpInstrs at h
  by_cases h0 : op = "+"
  · rw [if_pos h0] at h; cases h; cases b <;> rfl
  · rw [if_neg h0] at h
    by_cases h1 : op = "-"
    · rw [if_pos h1] at h; cases h; cases b <;> rfl
    · rw [if_neg h1] at h
      by_cases h2 : op = "*"
      · rw [if_pos h2] at h; cases h; cases b <;> rfl
      · rw [if_neg h2] at h
        by_cases h3 : op = "/"
        · rw [if_pos h3] at h; cases h; cases b <;> rfl
        · rw [if_neg h3] at h
          by_cases h4 : op = "DIV_OP"
          · rw [if_pos h4] at h; cases h; cases b <;> rfl
          · rw [if_neg h4] at h
            by_cases h5 : op = "EQ_OP"
            · rw [if_pos h5] at h; cases h; cases b <;> rfl
            · rw [if_neg h5] at h
              by_cases h6 : op = "NEQ_OP"
              · rw [if_pos h6] at h; cases h; cases b <;> rfl
              · rw [if_neg h6] at h
                by_cases h7 : op = "LT_OP"
                · rw [if_pos h7] at h; cases h; cases b <;> rfl
                · rw [if_neg h7] at h
                  by_cases h8 : op = "LTE_OP"
                  · rw [if_pos h8] at h; cases h; cases b <;> rfl
                  · rw [if_neg h8] at h
                    by_cases h9 : op = "GT_OP"
                    · rw [if_pos h9] at h; cases h; cases b <;> rfl
                    · rw [if_neg h9] at h
                      by_cases h10 : op = "GTE_OP"
                      · rw [if_pos h10] at h; cases h; cases b <;> rfl
                      · rw [if_neg h10] at h
                        by_cases h11 : op = "AND_OP"
                        · rw [if_pos h11] at h; cases h; cases b <;> rfl
                        · rw [if_neg h11] at h
                          by_cases h12 : op = "OR_OP"
                          · rw [if_pos h12] at h; cases h; cases b <;> rfl
                          · rw [if_neg h12] at h
                            cases h

/-- Expression code generation only appends label-free instructions to
the stream; no other state component changes. -/
theorem genExpr_ok :
    ∀ (e : Expr) (st : GenSt), ∀ st', genExpr e st = .ok st' →
      ∃ Δ, st' = withCode st Δ ∧ labelsOf Δ = [] := by
  apply genExpr.induct
    (fun e st => ∀ st', genExpr e st = .ok st' →
      ∃ Δ, st' = withCode st Δ ∧ labelsOf Δ = [])
    (fun l st => ∀ st', genExprListRev l st = .ok st' →
      ∃ Δ, st' = withCode st Δ ∧ labelsOf Δ = [])
  case case1 =>
    intro v dt st st' h
    simp only [genExpr] at h
    exact ⟨_, ok_inv h, rfl⟩
  case case2 =>
    intro v dt st st' h
    simp only [genExpr] at h
    exact ⟨_, ok_inv h, rfl⟩
  case case3 =>
    intro b dt st st' h
    simp only [genExpr] at h
    exact ⟨_, ok_inv h, by cases b <;> rfl⟩
  case case4 =>
    intro s dt st st' h
    simp only [genExpr] at h
    exact ⟨_, ok_inv h, rfl⟩
  case case5 =>
    intro ident idx scope offset dt st hl st' h
    simp [genExpr, hl] at h
  case case6 =>
    intro ident idx scope offset dt st entry hl hk st' h
    simp [genExpr, hl, hk] at h
    exact ⟨_, h.symm, rfl⟩
  case case7 =>
    intro ident scope offset dt st entry hl hk ie hinit st' h
    simp [genExpr, hl, hk, hinit] at h
  case case8 =>
    intro ident scope offset dt st entry hl hk hinit v dt1 st' h
    simp [genExpr, hl, hk, hinit] at h
    cases scope <;> simp at h <;> rw [emitI2_eq] at h <;>
      exact ⟨_, h.symm, rfl⟩
  case case9 =>
    intro ident scope offset dt st entry hl hk ie hinit st1 hnl ih st' h
    simp only [genExpr, hl, hk, hinit, if_false, ite_false, bind, Except.bind] at h
    split at h
    · simp at h
    · split at h
      · simp at h
      · rename_i st2 hie
        have h3 := ok_inv h
        refine eok_chain ?_ (eok_chain (ih st2 hie)
          ⟨[Instr.pushi entry.arrayDetails.lowBound, Instr.sub, Instr.loadn],
            by rw [h3, emits_eq], rfl⟩)
        cases scope
        · exact ⟨[Instr.pushg entry.offset], rfl, rfl⟩
        · exact ⟨[Instr.pushl entry.offset], rfl, rfl⟩
  case case10 =>
    intro ident offset dt st entry hl hk st' h
    simp [genExpr, hl, hk] at h
    exact ⟨_, h.symm, rfl⟩
  case case11 =>
    intro ident scope offset dt st entry hl hk hs st' h
    simp [genExpr, hl, hk, hs] at h
    exact ⟨_, h.symm, rfl⟩
  case case12 =>
    intro ident scope dt st st' h
    simp [genExpr] at h
    rw [emits_eq] at h
    exact ⟨_, h.symm, rfl⟩
  case case13 =>
    intro ident kind scope dt st hk hl st' h
    simp [genExpr, hk, hl] at h
  case case14 =>
    intro ident kind scope dt st hk entry hl hpk st' h
    simp [genExpr, hk, hl, hpk] at h
    exact ⟨_, h.symm, rfl⟩
  case case15 =>
    intro ident kind dt st hk entry hl hpk st' h
    simp [genExpr, hk, hl, hpk] at h
    exact ⟨_, h.symm, rfl⟩
  case case16 =>
    intro ident kind scope dt st hk entry hl hpk hs st' h
    simp [genExpr, hk, hl, hpk, hs] at h
    exact ⟨_, h.symm, rfl⟩
  case case17 =>
    intro fname args dt st st' h
    simp [genExpr] at h
  case case18 =>
    intro fname args dt st entry st1 ih st' h
    simp only [genExpr, bind, Except.bind] at h
    split at h
    · simp at h
    · rename_i st2 hie
      refine eok_chain ⟨[Instr.pushn 1], rfl, rfl⟩
        (eok_chain (ih st2 hie) ?_)
      split at h
      · have h3 := ok_inv h
        refine ⟨[Instr.pusha entry.getMangledName, Instr.call,
          Instr.pop entry.numParameters], ?_, rfl⟩
        rw [h3]
        simp [emits, emitI, withCode]
      · have h3 := ok_inv h
        exact ⟨[Instr.pusha entry.getMangledName, Instr.call],
          by rw [h3, emits_eq], rfl⟩
  case case19 =>
    intro op l r dt st iro ihl ihr st' h
    simp only [genExpr, bind, Except.bind] at h
    split at h
    · simp at h
    · rename_i st1 hl1
      split at h
      · simp at h
      · rename_i st3 hr1
        refine eok_chain (eok_chain (ihl st1 hl1)
          (eok_ite _ st1 Instr.itof rfl)) (eok_chain (ihr st1 st3 hr1) ?_)
        split at h
        · rename_i tail htail
          have h3 := ok_inv h
          exact eok_chain (eok_ite _ st3 Instr.itof rfl)
            ⟨tail, by rw [h3, emits_eq], binOpInstrs_labels op _ tail htail⟩
        · simp at h
  case case20 =>
    intro op e dt st ih st' h
    simp only [genExpr, bind, Except.bind] at h
    split at h
    · simp at h
    · rename_i st1 h1
      refine eok_chain (ih st1 h1) ?_
      split at h
      · split at h
        · have h3 := ok_inv h
          exact ⟨[Instr.pushf "0.0", Instr.swap, Instr.fsub],
            by rw [h3, emits_eq], rfl⟩
        · have h3 := ok_inv h
          exact ⟨[Instr.pushi 0, Instr.swap, Instr.sub],
            by rw [h3, emits_eq], rfl⟩
      · split at h
        · have h3 := ok_inv h
          exact ⟨[Instr.not], h3, rfl⟩
        · have h3 := ok_inv h
          exact ⟨[], by rw [h3]; simp [withCode], rfl⟩
  case case21 =>
    intro st st' h
    simp only [genExprListRev] at h
    exact ⟨[], by cases h; simp [withCode], rfl⟩
  case case22 =>
    intro e rest st ihrest ihe st' h
    simp only [genExprListRev, bind, Except.bind] at h
    split at h
    · simp at h
    · rename_i st1 h1
      exact eok_chain (ihrest st1 h1) (ihe st1 st' h)

/-- A state whose stream has been extended and whose label counter has
moved; all other components unchanged. -/
def bump (st : GenSt) (Δ : List Instr) (c : Nat) : GenSt :=
  { st with code := st.code ++ Δ, labelCounter := c }

theorem genExprListRev_ok :
    ∀ (l : List Expr) (st st' : GenSt), genExprListRev l st = .ok st' →
      ∃ Δ, st' = withCode st Δ ∧ labelsOf Δ = [] := by
  intro l
  induction l with
  | nil =>
    intro st st' h
    simp only [genExprListRev] at h
    exact ⟨[], by cases h; simp [withCode], rfl⟩
  | cons e rest ih =>
    intro st st' h
    simp only [genExprListRev, bind, Except.bind] at h
    split at h
    · simp at h
    · rename_i st1 h1
      exact eok_chain (ih st st1 h1) (genExpr_ok e st1 st' h)

theorem genWriteArgs_ok :
    ∀ (l : List Expr) (st st' : GenSt), genWriteArgs l st = .ok st' →
      ∃ Δ, st' = withCode st Δ ∧ labelsOf Δ = [] := by
  intro l
  induction l with
  | nil =>
    intro st st' h
    simp only [genWriteArgs] at h
    exact ⟨[], by cases h; simp [withCode], rfl⟩
  | cons e rest ih =>
    intro st st' h
    simp only [genWriteArgs, bind, Except.bind] at h
    split at h
    · simp at h
    · rename_i st1 h1
      refine eok_chain (genExpr_ok e st st1 h1) ?_
      refine eok_chain ?_ (ih _ st' h)
      split
      · exact ⟨[Instr.writes], rfl, rfl⟩
      · split
        · exact ⟨[Instr.writei], rfl, rfl⟩
        · split
          · exact ⟨[Instr.writef], rfl, rfl⟩
          · exact eok_refl _

theorem ctrLabel_ne {p q : String} {n m : Nat}
    (hp : p ∈ ctrPrefixes) (hq : q ∈ ctrPrefixes) (hnm : n ≠ m) :
    ctrLabel p n ≠ ctrLabel q m :=
  fun h => hnm (ctrLabel_inj hp hq h).2

theorem LB_notin {a b n : Nat} {p : String} (hp : p ∈ ctrPrefixes)
    {ls : List String} (h : LB a b ls) (hn : n < a ∨ b ≤ n) :
    ctrLabel p n ∉ ls := by
  intro hin
  obtain ⟨q, m, hq, he, h1, h2⟩ := h.2.1 _ hin
  have := ctrLabel_inj hp hq he
  omega

theorem hELSE : "ELSE" ∈ ctrPrefixes := by simp [ctrPrefixes]

theorem hENDIF : "END_IF" ∈ ctrPrefixes := by simp [ctrPrefixes]

theorem hWS : "WHILE_START" ∈ ctrPrefixes := by simp [ctrPrefixes]

theorem hWE : "WHILE_END" ∈ ctrPrefixes := by simp [ctrPrefixes]

theorem LB_if_none {a c : Nat} {lt : List String} (ht : LB (a + 2) c lt) :
    LB a c (lt ++ [ctrLabel "ELSE" a, ctrLabel "END_IF" (a + 1)]) := by
  have hac : a + 2 ≤ c := ht.1
  refine ⟨by omega, ?_, ?_⟩
  · intro l hl
    rcases List.mem_append.mp hl with h | h
    · obtain ⟨p, n, hp, he, h1, h2⟩ := ht.2.1 l h
      exact ⟨p, n, hp, he, by omega, h2⟩
    · rcases List.mem_pair.mp h with rfl | rfl
      · exact ⟨"ELSE", a, hELSE, rfl, le_rfl, by omega⟩
      · exact ⟨"END_IF", a + 1, hENDIF, rfl, by omega, by omega⟩
  · refine List.Nodup.append ht.2.2 ?_ ?_
    · simp [List.nodup_cons]
      exact ctrLabel_ne hELSE hENDIF (by omega)
    · intro x hx hy
      obtain ⟨p, n, hp, he, h1, h2⟩ := ht.2.1 x hx
      subst he
      rcases List.mem_pair.mp hy with h | h
      · exact absurd (ctrLabel_inj hp hELSE h).2 (by omega)
      · exact absurd (ctrLabel_inj hp hENDIF h).2 (by omega)

theorem LB_if_some {a c1 c : Nat} {lt le : List String}
    (ht : LB (a + 2) c1 lt) (he : LB c1 c le) :
    LB a c (lt ++ ctrLabel "ELSE" a :: (le ++ [ctrLabel "END_IF" (a + 1)])) := by
  have h1 : a + 2 ≤ c1 := ht.1
  have h2 : c1 ≤ c := he.1
  refine ⟨by omega, ?_, ?_⟩
  · intro l hl
    rcases List.mem_append.mp hl with h | h
    · obtain ⟨p, n, hp, hel, hn1, hn2⟩ := ht.2.1 l h
      exact ⟨p, n, hp, hel, by omega, by omega⟩
    · rcases List.mem_cons.mp h with rfl | h
      · exact ⟨"ELSE", a, hELSE, rfl, le_rfl, by omega⟩
      · rcases List.mem_append.mp h with h | h
        · obtain ⟨p, n, hp, hel, hn1, hn2⟩ := he.2.1 l h
          exact ⟨p, n, hp, hel, by omega, hn2⟩
        · rcases List.mem_singleton.mp h with rfl
          exact ⟨"END_IF", a + 1, hENDIF, rfl, by omega, by omega⟩
  · refine List.Nodup.append ht.2.2 ?_ ?_
    · refine List.nodup_cons.mpr ⟨?_, ?_⟩
      · intro hmem
        rcases List.mem_append.mp hmem with h | h
        · exact LB_notin hELSE he (by omega) h
        · rcases List.mem_singleton.mp h with h
          exact ctrLabel_ne hELSE hENDIF (by omega) h
      · refine List.Nodup.append he.2.2 (List.nodup_singleton _) ?_
        intro x hx hy
        obtain ⟨p, n, hp, hel, hn1, hn2⟩ := he.2.1 x hx
        subst hel
        rcases List.mem_singleton.mp hy with h
        exact absurd (ctrLabel_inj hp hENDIF h).2 (by omega)
    · intro x hx hy
      obtain ⟨p, n, hp, hel, hn1, hn2⟩ := ht.2.1 x hx
      subst hel
      rcases List.mem_cons.mp hy with h | h
      · exact absurd (ctrLabel_inj hp hELSE h).2 (by omega)
      · rcases List.mem_append.mp h with h | h
        · obtain ⟨q, m, hq, hel2, hm1, hm2⟩ := he.2.1 _ h
          exact absurd (ctrLabel_inj hp hq hel2).2 (by omega)
        · rcases List.mem_singleton.mp h with h
          exact absurd (ctrLabel_inj hp hENDIF h).2 (by omega)

theorem LB_while {a c1 : Nat} {lb : List String} (hb : LB (a + 2) c1 lb) :
    LB a c1 (ctrLabel "WHILE_START" a :: (lb ++ [ctrLabel "WHILE_END" (a + 1)])) := by
  have h1 : a + 2 ≤ c1 := hb.1
  refine ⟨by omega, ?_, ?_⟩
  · intro l hl
    rcases List.mem_cons.mp hl with rfl | h
    · exact ⟨"WHILE_START", a, hWS, rfl, le_rfl, by omega⟩
    · rcases List.mem_append.mp h with h | h
      · obtain ⟨p, n, hp, hel, hn1, hn2⟩ := hb.2.1 l h
        exact ⟨p, n, hp, hel, by omega, hn2⟩
      · rcases List.mem_singleton.mp h with rfl
        exact ⟨"WHILE_END", a + 1, hWE, rfl, by omega, by omega⟩
  · refine List.nodup_cons.mpr ⟨?_, ?_⟩
    · intro hmem
      rcases List.mem_append.mp hmem with h | h
      · exact LB_notin hWS hb (by omega) h
      · rcases List.mem_singleton.mp h with h
        exact ctrLabel_ne hWS hWE (by omega) h
    · refine List.Nodup.append hb.2.2 (List.nodup_singleton _) ?_
      intro x hx hy
      obtain ⟨p, n, hp, hel, hn1, hn2⟩ := hb.2.1 x hx
      subst hel
      rcases List.mem_singleton.mp hy with h
      exact absurd (ctrLabel_inj hp hWE h).2 (by omega)


/-- The state relation established by statement generation: label-free
or counter-labelled code is appended and the counter moves forward. -/
def SOK (st1 st2 : GenSt) : Prop :=
  ∃ Δ, st2 = bump st1 Δ st2.labelCounter ∧
    LB st1.labelCounter st2.labelCounter (labelsOf Δ)

theorem sok_of_eok {st1 st2 : GenSt}
    (H : ∃ Δ, st2 = withCode st1 Δ ∧ labelsOf Δ = []) : SOK st1 st2 := by
  obtain ⟨Δ, h, hl⟩ := H
  subst h
  exact ⟨Δ, rfl, by rw [hl]; exact LB_nil le_rfl⟩

theorem sok_refl (st : GenSt) : SOK st st :=
  ⟨[], by simp [bump], LB_nil le_rfl⟩

theorem sok_chain {st1 st2 st3 : GenSt} (H1 : SOK st1 st2) (H2 : SOK st2 st3) :
    SOK st1 st3 := by
  obtain ⟨a, ha, la⟩ := H1
  obtain ⟨b, hb, lb⟩ := H2
  refine ⟨a ++ b, ?_, ?_⟩
  · conv_lhs => rw [hb]
    conv_lhs => rw [ha]
    simp [bump, List.append_assoc]
  · rw [labelsOf_append]
    exact LB_append la lb

/-- Statement generation: appends code whose labels are fresh counter
labels in the traversed counter interval; all state components other
than the stream and the counter are unchanged. -/
theorem genStmt_ok :
    ∀ (s : Stmt) (st st' : GenSt), genStmt s st = .ok st' → SOK st st' := by
  apply genStmt.induct
    (fun s st => ∀ st', genStmt s st = .ok st' → SOK st st')
    (fun l st => ∀ st', genStmtList l st = .ok st' → SOK st st')
  case case1 =>
    intro expr st ident scope off dt ie hl st' h
    simp [genStmt, hl] at h
  case case2 =>
    intro expr st ident scope off dt entry hl v dt1 st' h
    simp only [genStmt, hl, bind, Except.bind] at h
    split at h
    · simp at h
    · rename_i st2 hexp
      have h3 := ok_inv h
      refine sok_of_eok (eok_chain ?_ (eok_chain (genExpr_ok expr _ st2 hexp)
        ⟨[Instr.store (v - entry.arrayDetails.lowBound)], h3, rfl⟩))
      split
      · exact ⟨[Instr.pushl off], rfl, rfl⟩
      · exact ⟨[Instr.pushg off], rfl, rfl⟩
  case case3 =>
    intro expr st ident scope off dt ie entry hl hnl st' h
    simp only [genStmt, hl, bind, Except.bind] at h
    split at h
    · simp at h
    · rename_i st2 hie
      split at h
      · simp at h
      · rename_i st4 hexp
        have h3 := ok_inv h
        refine sok_of_eok (eok_chain ?_ (eok_chain (genExpr_ok ie _ st2 hie)
          (eok_chain ⟨[Instr.pushi entry.arrayDetails.lowBound, Instr.sub],
              emits_eq st2 _, rfl⟩
            (eok_chain (genExpr_ok expr _ st4 hexp)
              ⟨[Instr.storen], h3, rfl⟩))))
        split
        · exact ⟨[Instr.pushl off], rfl, rfl⟩
        · exact ⟨[Instr.pushg off], rfl, rfl⟩
  case case4 =>
    intro expr st ident scope off dt st' h
    simp only [genStmt, bind, Except.bind] at h
    split at h
    · simp at h
    · rename_i st1 hexp
      refine sok_of_eok (eok_chain (genExpr_ok expr _ st1 hexp)
        (eok_chain (eok_ite (dt = EntryTypeCategory.PRIMITIVE_REAL ∧
          expr.determinedType = EntryTypeCategory.PRIMITIVE_INTEGER)
          st1 Instr.itof rfl) ?_))
      split at h
      · simp at h
      · rename_i entry hlk
        split at h
        · have h3 := ok_inv h
          exact ⟨[Instr.storel (-(entry.offset + 1))], h3, rfl⟩
        · split at h
          · have h3 := ok_inv h
            exact ⟨[Instr.storel entry.offset], h3, rfl⟩
          · have h3 := ok_inv h
            exact ⟨[Instr.storeg entry.offset], h3, rfl⟩
  case case5 =>
    intro tgt expr st hnv st' h
    cases tgt
    case varNode a b c d e => exact (hnv a b c d e rfl).elim
    all_goals
      simp only [genStmt] at h
    all_goals
      cases h
    all_goals
      exact sok_refl _
  case case6 =>
    intro stmts st ih st' h
    simp only [genStmt] at h
    exact ih st' h
  case case7 =>
    intro cond thenS st p1 iht st' h
    simp only [genStmt, bind, Except.bind] at h
    split at h
    · simp at h
    · rename_i st1 hc
      split at h
      · simp at h
      · rename_i st3 hth
        have h3 := ok_inv h
        obtain ⟨Δc, hc1, hc0⟩ := genExpr_ok cond _ st1 hc
        obtain ⟨Δt, hth1, lth⟩ := iht st1 st3 hth
        have elc : (emitI st1 (Instr.jz p1.1)).labelCounter =
            st.labelCounter + 2 := by rw [hc1]; rfl
        refine ⟨Δc ++ Instr.jz p1.1 :: (Δt ++
          [Instr.label p1.1, Instr.label (newLabel "END_IF" p1.2).1]), ?_, ?_⟩
        · rw [h3, hth1, hc1]
          simp +zetaDelta [bump, withCode, emitI, emitLabel, newLabel,
            List.append_assoc]
        · have hlab : labelsOf (Δc ++ Instr.jz p1.1 :: (Δt ++
              [Instr.label p1.1, Instr.label (newLabel "END_IF" p1.2).1])) =
              labelsOf Δt ++ [ctrLabel "ELSE" st.labelCounter,
                ctrLabel "END_IF" (st.labelCounter + 1)] := by
            rw [labelsOf_append, hc0, List.nil_append]
            show labelsOf (Δt ++ _) = _
            rw [labelsOf_append]
            rfl
          have hlc : st'.labelCounter = st3.labelCounter := by rw [h3]; rfl
          rw [hlc, hlab]
          exact LB_if_none (by rwa [elc] at lth)
  case case8 =>
    intro cond thenS es st p1 p2 iht ihe st' h
    simp only [genStmt, bind, Except.bind] at h
    split at h
    · simp at h
    · rename_i st1 hc
      split at h
      · simp at h
      · rename_i st3 hth
        split at h
        · simp at h
        · rename_i st6 hes
          have h3 := ok_inv h
          obtain ⟨Δc, hc1, hc0⟩ := genExpr_ok cond _ st1 hc
          obtain ⟨Δt, hth1, lth⟩ := iht st1 st3 hth
          obtain ⟨Δe, hes1, les⟩ := ihe st3 st6 hes
          have elc : (emitI st1 (Instr.jz p1.1)).labelCounter =
              st.labelCounter + 2 := by rw [hc1]; rfl
          have elc2 : (emitLabel (emitI st3 (Instr.jump p2.1)) p1.1).labelCounter =
              st3.labelCounter := rfl
          refine ⟨Δc ++ Instr.jz p1.1 :: (Δt ++ Instr.jump p2.1 ::
            Instr.label p1.1 :: (Δe ++ [Instr.label p2.1])), ?_, ?_⟩
          · rw [h3, hes1, hth1, hc1]
            simp +zetaDelta [bump, withCode, emitI, emitLabel, newLabel,
              List.append_assoc]
          · have hlab : labelsOf (Δc ++ Instr.jz p1.1 :: (Δt ++
                Instr.jump p2.1 :: Instr.label p1.1 ::
                  (Δe ++ [Instr.label p2.1]))) =
                labelsOf Δt ++ ctrLabel "ELSE" st.labelCounter ::
                  (labelsOf Δe ++ [ctrLabel "END_IF" (st.labelCounter + 1)]) := by
              rw [labelsOf_append, hc0, List.nil_append]
              show labelsOf (Δt ++ _) = _
              rw [labelsOf_append]
              show labelsOf Δt ++ ctrLabel "ELSE" st.labelCounter ::
                labelsOf (Δe ++ [Instr.label p2.1]) = _
              rw [labelsOf_append]
              rfl
            have hlc : st'.labelCounter = st6.labelCounter := by rw [h3]; rfl
            rw [hlc, hlab]
            exact @LB_if_some st.labelCounter st3.labelCounter st6.labelCounter
              (labelsOf Δt) (labelsOf Δe)
              (by rwa [elc] at lth) (by rwa [elc2] at les)
  case case9 =>
    intro cond body st p1 p2 ihb st' h
    simp only [genStmt, bind, Except.bind] at h
    split at h
    · simp at h
    · rename_i st2 hc
      split at h
      · simp at h
      · rename_i st4 hb
        have h3 := ok_inv h
        obtain ⟨Δc, hc1, hc0⟩ := genExpr_ok cond _ st2 hc
        obtain ⟨Δb, hb1, lbb⟩ := ihb st2 st4 hb
        have elc : (emitI st2 (Instr.jz p2.1)).labelCounter =
            st.labelCounter + 2 := by rw [hc1]; rfl
        refine ⟨Instr.label p1.1 :: (Δc ++ Instr.jz p2.1 :: (Δb ++
          [Instr.jump p1.1, Instr.label p2.1])), ?_, ?_⟩
        · rw [h3, hb1, hc1]
          simp +zetaDelta [bump, withCode, emitI, emitLabel, newLabel,
            List.append_assoc]
        · have hlab : labelsOf (Instr.label p1.1 :: (Δc ++ Instr.jz p2.1 ::
              (Δb ++ [Instr.jump p1.1, Instr.label p2.1]))) =
              ctrLabel "WHILE_START" st.labelCounter ::
                (labelsOf Δb ++ [ctrLabel "WHILE_END" (st.labelCounter + 1)]) := by
            show ctrLabel "WHILE_START" st.labelCounter ::
              labelsOf (Δc ++ _) = _
            rw [labelsOf_append, hc0, List.nil_append]
            show ctrLabel "WHILE_START" st.labelCounter ::
              labelsOf (Δb ++ _) = _
            rw [labelsOf_append]
            rfl
          have hlc : st'.labelCounter = st4.labelCounter := by rw [h3]; rfl
          rw [hlc, hlab]
          exact LB_while (by rwa [elc] at lbb)
  case case10 =>
    intro procName resolved args st hw st' h
    simp only [genStmt] at h
    rw [if_pos hw] at h
    simp only [bind, Except.bind] at h
    split at h
    · simp at h
    · rename_i st1 hargs
      refine sok_of_eok (eok_chain (genWriteArgs_ok args st st1 hargs) ?_)
      split at h
      · have h3 := ok_inv h
        exact ⟨[Instr.pushs "\n", Instr.writes], by rw [h3, emits_eq], rfl⟩
      · have h3 := ok_inv h
        exact ⟨[], by rw [h3]; simp [withCode], rfl⟩
  case case11 =>
    intro procName resolved args st hw hr st' h
    simp only [genStmt] at h
    rw [if_neg hw, if_pos hr] at h
    cases h
    exact sok_refl _
  case case12 =>
    intro procName args st hw hr st' h
    simp only [genStmt] at h
    rw [if_neg hw, if_neg hr] at h
    simp at h
  case case13 =>
    intro procName args st hw hr entry st' h
    simp only [genStmt] at h
    rw [if_neg hw, if_neg hr] at h
    simp only [bind, Except.bind] at h
    split at h
    · simp at h
    · rename_i st1 hargs
      refine sok_of_eok (eok_chain (genExprListRev_ok args st st1 hargs) ?_)
      split at h
      · have h3 := ok_inv h
        refine ⟨[Instr.pusha entry.getMangledName, Instr.call,
          Instr.pop entry.numParameters], ?_, rfl⟩
        rw [h3]
        simp [emits, emitI, withCode]
      · have h3 := ok_inv h
        exact ⟨[Instr.pusha entry.getMangledName, Instr.call],
          by rw [h3, emits_eq], rfl⟩
  case case14 =>
    intro st ie hctx st' h
    simp [genStmt, hctx] at h
  case case15 =>
    intro st ie entry hctx st' h
    simp only [genStmt, hctx, bind, Except.bind] at h
    split at h
    · simp at h
    · rename_i st1 hexp
      have h3 := ok_inv h
      refine sok_of_eok (eok_chain (genExpr_ok ie st st1 hexp)
        (eok_chain (eok_ite _ st1 Instr.itof rfl) ⟨[Instr.storel (-(entry.numParameters + 1)), Instr.ret], by rw [h3, emits_eq], rfl⟩))
  case case16 =>
    intro st st' h
    simp only [genStmt] at h
    have h3 := ok_inv h
    exact sok_of_eok ⟨[Instr.ret], h3, rfl⟩
  case case17 =>
    intro st st' h
    simp only [genStmtList] at h
    cases h
    exact sok_refl _
  case case18 =>
    intro s rest st ihs ihrest st' h
    simp only [genStmtList, bind, Except.bind] at h
    split at h
    · simp at h
    · rename_i st1 h1
      exact sok_chain (ihs st1 h1) (ihrest st1 st' h)


theorem genArrayAllocs_ok :
    ∀ (ids : List Ident) (size : Int) (st st' : GenSt),
      genArrayAllocs ids size st = .ok st' →
      ∃ Δ, st' = withCode st Δ ∧ labelsOf Δ = [] := by
  intro ids
  induction ids with
  | nil =>
    intro size st st' h
    simp only [genArrayAllocs] at h
    exact ⟨[], by cases h; simp [withCode], rfl⟩
  | cons id rest ih =>
    intro size st st' h
    simp only [genArrayAllocs] at h
    split at h
    · simp at h
    · rename_i entry hlk
      refine eok_chain ?_ (ih size _ st' h)
      refine eok_chain ⟨[Instr.alloc size], rfl, rfl⟩ ?_
      split
      · exact ⟨[Instr.storeg entry.offset], rfl, rfl⟩
      · exact ⟨[Instr.storel entry.offset], rfl, rfl⟩

theorem genVarDecl_ok :
    ∀ (node : VarDecl) (st st' : GenSt), genVarDecl node st = .ok st' →
      ∃ Δ, st' = withCode st Δ ∧ labelsOf Δ = [] := by
  intro node st st' h
  unfold genVarDecl at h
  dsimp only at h
  split at h
  all_goals try split at h
  all_goals try split at h
  all_goals try split at h
  all_goals try split at h
  all_goals first
    | (exact Except.noConfusion h)
    | omega
    | (cases h; exact eok_refl _)
    | (cases h; exact ⟨[Instr.pushn _], rfl, rfl⟩)
    | (exact genArrayAllocs_ok _ _ _ st' h)
    | (exact eok_chain ⟨[Instr.pushn _], rfl, rfl⟩ (genArrayAllocs_ok _ _ _ st' h))

theorem genVarDecls_ok :
    ∀ (l : List VarDecl) (st st' : GenSt), genVarDecls l st = .ok st' →
      ∃ Δ, st' = withCode st Δ ∧ labelsOf Δ = [] := by
  intro l
  induction l with
  | nil =>
    intro st st' h
    simp only [genVarDecls] at h
    exact ⟨[], by cases h; simp [withCode], rfl⟩
  | cons d rest ih =>
    intro st st' h
    simp only [genVarDecls, bind, Except.bind] at h
    split at h
    · simp at h
    · rename_i st1 h1
      exact eok_chain (genVarDecl_ok d st st1 h1) (ih st1 st' h)

theorem genDeclarations_ok :
    ∀ (node : Declarations) (st st' : GenSt), genDeclarations node st = .ok st' →
      ∃ Δ, st' = withCode st Δ ∧ labelsOf Δ = [] := by
  intro node st st' h
  unfold genDeclarations at h
  dsimp only at h
  try split at h
  all_goals try split at h
  all_goals try split at h
  all_goals first
    | omega
    | (exact genVarDecls_ok _ _ _ h)
    | (exact eok_chain ⟨[Instr.pushn _], rfl, rfl⟩ (genVarDecls_ok _ _ _ h))

theorem addSymbol_tail (tab : List (List SymbolEntry)) (e : SymbolEntry) :
    (addSymbol tab e).tail = tab.tail := by
  cases tab <;> rfl

theorem addParams_fields (tp : EntryTypeCategory) (ad : ArrayDetails) :
    ∀ (ids : List Ident) (st : GenSt),
      (addParams tp ad ids st).code = st.code ∧
      (addParams tp ad ids st).labelCounter = st.labelCounter ∧
      (addParams tp ad ids st).currentSubprogramEntry = st.currentSubprogramEntry ∧
      (addParams tp ad ids st).symtab.tail = st.symtab.tail := by
  intro ids
  induction ids with
  | nil => intro st; exact ⟨rfl, rfl, rfl, rfl⟩
  | cons ident rest ih =>
    intro st
    simp only [addParams]
    refine ⟨(ih _).1, (ih _).2.1, (ih _).2.2.1, ?_⟩
    rw [(ih _).2.2.2]
    exact addSymbol_tail st.symtab _

theorem genParameterList_fields :
    ∀ (l : List ParameterDeclaration) (st : GenSt),
      (genParameterList l st).code = st.code ∧
      (genParameterList l st).labelCounter = st.labelCounter ∧
      (genParameterList l st).currentSubprogramEntry = st.currentSubprogramEntry ∧
      (genParameterList l st).symtab.tail = st.symtab.tail := by
  intro l
  induction l with
  | nil => intro st; exact ⟨rfl, rfl, rfl, rfl⟩
  | cons p rest ih =>
    intro st
    simp only [genParameterList, genParameterDeclaration]
    refine ⟨?_, ?_, ?_, ?_⟩
    · rw [(ih _).1, (addParams_fields _ _ _ _).1]
    · rw [(ih _).2.1, (addParams_fields _ _ _ _).2.1]
    · rw [(ih _).2.2.1, (addParams_fields _ _ _ _).2.2.1]
    · rw [(ih _).2.2.2, (addParams_fields _ _ _ _).2.2.2]

theorem genArguments_fields (args : Option (List ParameterDeclaration)) (st : GenSt) :
    (genArguments args st).code = st.code ∧
    (genArguments args st).labelCounter = st.labelCounter ∧
    (genArguments args st).currentSubprogramEntry = st.currentSubprogramEntry ∧
    (genArguments args st).symtab.tail = st.symtab.tail := by
  cases args with
  | none => exact ⟨rfl, rfl, rfl, rfl⟩
  | some l => exact genParameterList_fields l st

theorem genDeclarationsOpt_ok (d : Option Declarations) (st1 st2 : GenSt)
    (h : genDeclarationsOpt d st1 = .ok st2) :
    ∃ Δ, st2 = withCode st1 Δ ∧ labelsOf Δ = [] := by
  cases d with
  | none => exact ⟨[], by cases h; simp [withCode], rfl⟩
  | some dd => exact genDeclarations_ok dd st1 st2 h

theorem genStmtOpt_ok (b : Option Stmt) (st1 st2 : GenSt)
    (h : genStmtOpt b st1 = .ok st2) : SOK st1 st2 := by
  cases b with
  | none => exact (by cases h; exact sok_refl st1)
  | some s => exact genStmt_ok s st1 st2 h

theorem genArguments_code (a : Option (List ParameterDeclaration)) (x : GenSt) :
    (genArguments a x).code = x.code := (genArguments_fields a x).1

theorem genArguments_lc (a : Option (List ParameterDeclaration)) (x : GenSt) :
    (genArguments a x).labelCounter = x.labelCounter := (genArguments_fields a x).2.1

theorem genArguments_cse (a : Option (List ParameterDeclaration)) (x : GenSt) :
    (genArguments a x).currentSubprogramEntry = x.currentSubprogramEntry :=
  (genArguments_fields a x).2.2.1

theorem genArguments_symtab_tail (a : Option (List ParameterDeclaration)) (x : GenSt) :
    (genArguments a x).symtab.tail = x.symtab.tail := (genArguments_fields a x).2.2.2

/-- visit(SubprogramDeclaration) on a successful run: the subprogram
entry is resolved from the initial scope stack by the recomputed
mangled key; the scope stack and current-subprogram context are
restored; the emitted block is the jump-over, the entry label, the
label-free or counter-labelled inner code, and the end label. -/
theorem genSubprogramDeclaration_ok {sd : SubprogramDeclaration} {st st' : GenSt}
    (h : genSubprogramDeclaration sd st = .ok st') :
    ∃ e Δ B,
      lookupSymbol st.symtab (mangledKeyFor sd.head) = some e ∧
      st'.symtab = st.symtab ∧
      st'.currentSubprogramEntry = st.currentSubprogramEntry ∧
      st'.code = st.code ++ Δ ∧
      LB st.labelCounter st'.labelCounter B ∧
      labelsOf Δ = e.mangledName :: (B ++ [e.mangledName ++ "_end"]) := by
  unfold genSubprogramDeclaration at h
  dsimp only at h
  split at h
  · exact Except.noConfusion h
  · rename_i entry hlk
    simp only [bind, Except.bind] at h
    split at h
    · exact Except.noConfusion h
    · rename_i st4 hdecl
      split at h
      · exact Except.noConfusion h
      · rename_i st5 hbody
        have h3 := ok_inv h
        obtain ⟨Δd, hd1, hd0⟩ := genDeclarationsOpt_ok _ _ _ hdecl
        obtain ⟨Δs, hs1, hsl⟩ := genStmtOpt_ok _ _ _ hbody
        have hite : labelsOf (if sd.head.isFunction then ([] : List Instr)
            else [Instr.ret]) = [] := by split <;> rfl
        refine ⟨entry, Instr.jump (entry.getMangledName ++ "_end") ::
          Instr.label entry.getMangledName :: (Δd ++ (Δs ++
            ((if sd.head.isFunction then [] else [Instr.ret]) ++
              [Instr.label (entry.getMangledName ++ "_end")]))),
          labelsOf Δs, hlk, ?_, ?_, ?_, ?_, ?_⟩
        · rw [h3, hs1, hd1]
          split <;>
          · simp only [bump, withCode, emitLabel, emitI, exitScope, enterScope]
            rw [genArguments_symtab_tail]
            try rfl
        · rw [h3]
        · rw [h3, hs1, hd1]
          cases hfun : sd.head.isFunction <;>
            simp [hfun, bump, withCode, emitLabel, emitI, genArguments_code,
              List.append_assoc]
        · have e1 : st4.labelCounter = st.labelCounter := by
            rw [hd1]
            simp [withCode, genArguments_lc, emitLabel, emitI]
          have e2 : st'.labelCounter = st5.labelCounter := by
            rw [h3, hs1]
            try (first | rfl | (split <;> rfl))
          rw [e2, ← e1]
          exact hsl
        · simp only [labelsOf, labelsOf_append, hd0, hite, List.nil_append,
            List.append_nil]
          rfl


/-- Sequential left-to-right generation of a list of expressions; used
to express that the call-argument loop is exactly the reversed-order
traversal. -/
def genSeq : List Expr → GenSt → GRes
  | [], st => .ok st
  | e :: rest, st => do
    let st1 ← genExpr e st
    genSeq rest st1

theorem genSeq_append :
    ∀ (a b : List Expr) (st : GenSt),
      genSeq (a ++ b) st = (genSeq a st).bind (genSeq b) := by
  intro a
  induction a with
  | nil => intro b st; rfl
  | cons e rest ih =>
    intro b st
    simp only [List.cons_append, genSeq, bind, Except.bind]
    cases genExpr e st with
    | error err => rfl
    | ok st1 => exact ih b st1

/-- The reverse-iterator argument loop evaluates the arguments exactly
as a left-to-right pass over the reversed list. -/
theorem genExprListRev_eq_genSeq :
    ∀ (l : List Expr) (st : GenSt), genExprListRev l st = genSeq l.reverse st := by
  intro l
  induction l with
  | nil => intro st; rfl
  | cons e rest ih =>
    intro st
    simp only [genExprListRev, List.reverse_cons, genSeq_append, bind, Except.bind, ih]
    cases genSeq rest.reverse st with
    | error err => rfl
    | ok st1 =>
      simp only [genSeq, bind, Except.bind]
      cases genExpr e st1 with
      | error err => rfl
      | ok st2 => rfl

/-- Claim C1: for a call to a user-defined subprogram, a function-call
expression reserves exactly one stack cell (pushn 1) before any
argument is evaluated while a procedure-call statement reserves none;
the arguments are evaluated in reverse declaration order (rightmost
first, i.e. a left-to-right pass over the reversed argument list); the
callee address (the resolved entry's mangled name) is pushed and call
is emitted; and a pop of exactly numParameters cells follows if and
only if numParameters > 0. -/
theorem c1_call_convention :
    (∀ (fname : String) (entry : SymbolEntry) (args : List Expr)
        (dt : EntryTypeCategory) (st st' : GenSt),
        genExpr (Expr.functionCall fname (some entry) args dt) st = .ok st' →
        ∃ stm, genSeq args.reverse (emitI st (Instr.pushn 1)) = .ok stm ∧
          st' = withCode stm ([Instr.pusha entry.getMangledName, Instr.call] ++
            (if entry.numParameters > 0 then [Instr.pop entry.numParameters] else []))) ∧
    (∀ (procName : String) (entry : SymbolEntry) (args : List Expr) (st st' : GenSt),
        ¬(procName = "write" ∨ procName = "writeln") →
        ¬(procName = "read" ∨ procName = "readln") →
        genStmt (Stmt.procedureCall procName (some entry) args) st = .ok st' →
        ∃ stm, genSeq args.reverse st = .ok stm ∧
          st' = withCode stm ([Instr.pusha entry.getMangledName, Instr.call] ++
            (if entry.numParameters > 0 then [Instr.pop entry.numParameters] else []))) := by
  constructor
  · intro fname entry args dt st st' h
    simp only [genExpr, bind, Except.bind] at h
    split at h
    · exact Except.noConfusion h
    · rename_i stm hargs
      rw [genExprListRev_eq_genSeq] at hargs
      refine ⟨stm, hargs, ?_⟩
      split at h
      · have h3 := ok_inv h
        rw [h3]
        rename_i hpos
        rw [if_pos hpos]
        simp [emits, emitI, withCode, List.append_assoc]
      · have h3 := ok_inv h
        rw [h3]
        rename_i hpos
        rw [if_neg hpos]
        simp [emits, emitI, withCode, List.append_assoc]
  · intro procName entry args st st' hw hr h
    simp only [genStmt] at h
    rw [if_neg hw, if_neg hr] at h
    simp only [bind, Except.bind] at h
    split at h
    · exact Except.noConfusion h
    · rename_i stm hargs
      rw [genExprListRev_eq_genSeq] at hargs
      refine ⟨stm, hargs, ?_⟩
      split at h
      · have h3 := ok_inv h
        rw [h3]
        rename_i hpos
        rw [if_pos hpos]
        simp [emits, emitI, withCode, List.append_assoc]
      · have h3 := ok_inv h
        rw [h3]
        rename_i hpos
        rw [if_neg hpos]
        simp [emits, emitI, withCode, List.append_assoc]

def c1st : GenSt := ⟨0, [[]], 0, 0, Option.none, []⟩

def c1entry : SymbolEntry :=
  { name := "f_f_i_i", kind := SymbolKind.FUNCTION, mangledName := "f_f_i_i",
    numParameters := 2 }

def c1args : List Expr :=
  [Expr.intNum 1 EntryTypeCategory.PRIMITIVE_INTEGER,
   Expr.intNum 2 EntryTypeCategory.PRIMITIVE_INTEGER]

/-- Witness for C1 at a concrete two-argument function call: the second
argument is pushed first, the return slot is reserved before both,
and exactly two cells are popped after the call. -/
theorem c1_call_convention_witness :
    ∃ stm, genSeq c1args.reverse (emitI c1st (Instr.pushn 1)) = .ok stm ∧
      ({ c1st with code := [Instr.pushn 1, Instr.pushi 2, Instr.pushi 1,
          Instr.pusha "f_f_i_i", Instr.call, Instr.pop 2] } : GenSt) =
        withCode stm ([Instr.pusha c1entry.getMangledName, Instr.call] ++
          (if c1entry.numParameters > 0 then [Instr.pop c1entry.numParameters] else [])) :=
  c1_call_convention.1 "f" c1entry c1args EntryTypeCategory.PRIMITIVE_INTEGER c1st
    { c1st with code := [Instr.pushn 1, Instr.pushi 2, Instr.pushi 1,
        Instr.pusha "f_f_i_i", Instr.call, Instr.pop 2] } rfl

def c2st : GenSt := ⟨0, [[]], 0, 0, Option.none, []⟩

/-- Counterexample to Claim C2 as stated: a bare return statement (no
return value) visited with no current-subprogram context does NOT
signal a fatal error; it succeeds and emits a return instruction. -/
theorem c2_counterexample :
    genStmt (Stmt.returnStmt Option.none) c2st =
      .ok { c2st with code := [Instr.ret] } := rfl

/-- Claim C2 (amended): a return statement WITH a return value visited
while no current-subprogram context is set is a fatal error that emits
nothing (the carried state is unchanged); a bare return never consults
the context and just emits a single return instruction. -/
theorem c2_return_context :
    (∀ (e : Expr) (st : GenSt), st.currentSubprogramEntry = Option.none →
        genStmt (Stmt.returnStmt (some e)) st =
          .error ("CodeGen: Return statement found with no subprogram context.", st)) ∧
    (∀ st : GenSt, genStmt (Stmt.returnStmt Option.none) st = .ok (emitI st Instr.ret)) := by
  constructor
  · intro e st hctx
    simp [genStmt, hctx]
  · intro st
    rfl

/-- Witness for C2 (amended) at a concrete value-returning return with
no context. -/
theorem c2_return_context_witness :
    genStmt (Stmt.returnStmt (some (Expr.intNum 0 EntryTypeCategory.PRIMITIVE_INTEGER))) c2st =
      .error ("CodeGen: Return statement found with no subprogram context.", c2st) :=
  c2_return_context.1 (Expr.intNum 0 EntryTypeCategory.PRIMITIVE_INTEGER) c2st rfl


/-- Indexed assignment with a literal integer index: the array base is
pushed (by the node's annotated scope and offset), the right-hand side
is generated, and a direct store with compile-time offset
literal - lowBound follows immediately. -/
theorem assign_indexed_lit {ident : String} {v : Int} {dtl : EntryTypeCategory}
    {scope : SymbolScope} {off : Int} {dt : EntryTypeCategory} {expr : Expr}
    {st st' : GenSt} {entry : SymbolEntry}
    (hlk : lookupSymbol st.symtab ident = some entry)
    (hok : genStmt (Stmt.assign
      (Expr.varNode ident (some (Expr.intNum v dtl)) scope off dt) expr) st = .ok st') :
    ∃ stm, genExpr expr
        (if scope = SymbolScope.LOCAL_SCOPE then emitI st (Instr.pushl off)
         else emitI st (Instr.pushg off)) = .ok stm ∧
      st' = emitI stm (Instr.store (v - entry.arrayDetails.lowBound)) := by
  simp only [genStmt, hlk, bind, Except.bind] at hok
  split at hok
  · exact Except.noConfusion hok
  · rename_i stm hexp
    exact ⟨stm, hexp, (ok_inv hok)⟩

/-- Indexed assignment with a non-literal index expression: base push,
index code, push of the lower bound and subtraction, right-hand side
code, indirect store. -/
theorem assign_indexed_dyn {ident : String} {ie : Expr}
    {scope : SymbolScope} {off : Int} {dt : EntryTypeCategory} {expr : Expr}
    {st st' : GenSt} {entry : SymbolEntry}
    (hlk : lookupSymbol st.symtab ident = some entry)
    (hnl : ∀ (v : Int) (dtl : EntryTypeCategory), ie ≠ Expr.intNum v dtl)
    (hok : genStmt (Stmt.assign
      (Expr.varNode ident (some ie) scope off dt) expr) st = .ok st') :
    ∃ st2 st4, genExpr ie
        (if scope = SymbolScope.LOCAL_SCOPE then emitI st (Instr.pushl off)
         else emitI st (Instr.pushg off)) = .ok st2 ∧
      genExpr expr (emits st2 [Instr.pushi entry.arrayDetails.lowBound, Instr.sub]) =
        .ok st4 ∧
      st' = emitI st4 Instr.storen := by
  cases ie
  case intNum v dtl => exact absurd rfl (hnl v dtl)
  all_goals (
    simp only [genStmt, hlk, bind, Except.bind] at hok
    split at hok
    · exact Except.noConfusion hok
    · rename_i st2 hie
      split at hok
      · exact Except.noConfusion hok
      · rename_i st4 hexp
        exact ⟨st2, st4, hie, hexp, ok_inv hok⟩)

/-- Indexed variable load with a literal index, for a non-parameter
symbol: base push from the entry's offset, then a direct load at
compile-time offset literal - lowBound. -/
theorem varload_indexed_lit {ident : String} {v : Int} {dtl : EntryTypeCategory}
    {scope : SymbolScope} {off : Int} {dt : EntryTypeCategory}
    {st st' : GenSt} {entry : SymbolEntry}
    (hlk : lookupSymbol st.symtab ident = some entry)
    (hkp : ¬ entry.kind = SymbolKind.PARAMETER)
    (hini : entry.arrayDetails.isInitialized = true)
    (hok : genExpr (Expr.varNode ident (some (Expr.intNum v dtl)) scope off dt) st = .ok st') :
    st' = emitI
      (if scope = SymbolScope.LOCAL_SCOPE then emitI st (Instr.pushl entry.offset)
       else emitI st (Instr.pushg entry.offset))
      (Instr.load (v - entry.arrayDetails.lowBound)) := by
  rw [genExpr.eq_5] at hok
  simp only [hlk] at hok
  rw [if_neg hkp] at hok
  rw [if_neg (by simp [hini])] at hok
  try dsimp only at hok
  exact ok_inv hok

/-- Indexed variable load with a non-literal index, for a non-parameter
symbol: base push, index code, push of the lower bound, subtraction,
indirect load. -/
theorem varload_indexed_dyn {ident : String} {ie : Expr}
    {scope : SymbolScope} {off : Int} {dt : EntryTypeCategory}
    {st st' : GenSt} {entry : SymbolEntry}
    (hlk : lookupSymbol st.symtab ident = some entry)
    (hkp : ¬ entry.kind = SymbolKind.PARAMETER)
    (hini : entry.arrayDetails.isInitialized = true)
    (hnl : ∀ (v : Int) (dtl : EntryTypeCategory), ie ≠ Expr.intNum v dtl)
    (hok : genExpr (Expr.varNode ident (some ie) scope off dt) st = .ok st') :
    ∃ st2, genExpr ie
        (if scope = SymbolScope.LOCAL_SCOPE then emitI st (Instr.pushl entry.offset)
         else emitI st (Instr.pushg entry.offset)) = .ok st2 ∧
      st' = emits st2 [Instr.pushi entry.arrayDetails.lowBound, Instr.sub, Instr.loadn] := by
  rw [genExpr.eq_5] at hok
  simp only [hlk] at hok
  rw [if_neg hkp] at hok
  rw [if_neg (by simp [hini])] at hok
  cases ie
  case intNum v dtl => exact absurd rfl (hnl v dtl)
  all_goals (
    try dsimp only at hok
    simp only [bind, Except.bind] at hok
    split at hok
    · exact Except.noConfusion hok
    · rename_i st2 hie
      exact ⟨st2, hie, ok_inv hok⟩)

def c3st : GenSt :=
  ⟨0, [[{ name := "a", kind := SymbolKind.PARAMETER,
          type := EntryTypeCategory.ARRAY, offset := 0,
          arrayDetails := ⟨EntryTypeCategory.PRIMITIVE_INTEGER, 1, 5, true⟩ }]],
   0, 0, Option.none, []⟩

/-- Counterexample to Claim C3 as stated: a load of element 1 of the
parameter array a, declared with bounds [1,5], does not lower to a load
at offset 0 (nor to any load at all) - the parameter fast path emits a
single pushl of the parameter slot and ignores the index entirely. -/
theorem c3_counterexample :
    genExpr (Expr.varNode "a" (some (Expr.intNum 1 EntryTypeCategory.PRIMITIVE_INTEGER))
        SymbolScope.LOCAL_SCOPE 0 EntryTypeCategory.PRIMITIVE_INTEGER) c3st =
      .ok { c3st with code := [Instr.pushl (-1)] } ∧
    Instr.load 0 ∉ [Instr.pushl (-1)] ∧ Instr.loadn ∉ [Instr.pushl (-1)] :=
  ⟨rfl, by simp, by simp⟩

/-- Claim C3 (amended): for an array access on an array whose resolved
symbol entry carries bounds [lo, hi]: stores always, and loads whenever
the resolved symbol is not a PARAMETER (a parameter read takes the
parameter fast path before the index is examined), lower to: a direct
load/store at compile-time offset index - lo when the index is an
integer literal, and otherwise to the index code followed by a push of
lo, a subtraction, and an indirect loadn/storen, so the computed offset
is index - lo. -/
theorem c3_array_offset :
    (∀ (ident : String) (v : Int) (dtl : EntryTypeCategory) (scope : SymbolScope)
        (off : Int) (dt : EntryTypeCategory) (expr : Expr) (st st' : GenSt)
        (entry : SymbolEntry),
        lookupSymbol st.symtab ident = some entry →
        genStmt (Stmt.assign
          (Expr.varNode ident (some (Expr.intNum v dtl)) scope off dt) expr) st = .ok st' →
        ∃ stm, genExpr expr
            (if scope = SymbolScope.LOCAL_SCOPE then emitI st (Instr.pushl off)
             else emitI st (Instr.pushg off)) = .ok stm ∧
          st' = emitI stm (Instr.store (v - entry.arrayDetails.lowBound))) ∧
    (∀ (ident : String) (ie : Expr) (scope : SymbolScope) (off : Int)
        (dt : EntryTypeCategory) (expr : Expr) (st st' : GenSt) (entry : SymbolEntry),
        lookupSymbol st.symtab ident = some entry →
        (∀ (v : Int) (dtl : EntryTypeCategory), ie ≠ Expr.intNum v dtl) →
        genStmt (Stmt.assign
          (Expr.varNode ident (some ie) scope off dt) expr) st = .ok st' →
        ∃ st2 st4, genExpr ie
            (if scope = SymbolScope.LOCAL_SCOPE then emitI st (Instr.pushl off)
             else emitI st (Instr.pushg off)) = .ok st2 ∧
          genExpr expr (emits st2 [Instr.pushi entry.arrayDetails.lowBound, Instr.sub]) =
            .ok st4 ∧
          st' = emitI st4 Instr.storen) ∧
    (∀ (ident : String) (v : Int) (dtl : EntryTypeCategory) (scope : SymbolScope)
        (off : Int) (dt : EntryTypeCategory) (st st' : GenSt) (entry : SymbolEntry),
        lookupSymbol st.symtab ident = some entry →
        ¬ entry.kind = SymbolKind.PARAMETER →
        entry.arrayDetails.isInitialized = true →
        genExpr (Expr.varNode ident (some (Expr.intNum v dtl)) scope off dt) st = .ok st' →
        st' = emitI
          (if scope = SymbolScope.LOCAL_SCOPE then emitI st (Instr.pushl entry.offset)
           else emitI st (Instr.pushg entry.offset))
          (Instr.load (v - entry.arrayDetails.lowBound))) ∧
    (∀ (ident : String) (ie : Expr) (scope : SymbolScope) (off : Int)
        (dt : EntryTypeCategory) (st st' : GenSt) (entry : SymbolEntry),
        lookupSymbol st.symtab ident = some entry →
        ¬ entry.kind = SymbolKind.PARAMETER →
        entry.arrayDetails.isInitialized = true →
        (∀ (v : Int) (dtl : EntryTypeCategory), ie ≠ Expr.intNum v dtl) →
        genExpr (Expr.varNode ident (some ie) scope off dt) st = .ok st' →
        ∃ st2, genExpr ie
            (if scope = SymbolScope.LOCAL_SCOPE then emitI st (Instr.pushl entry.offset)
             else emitI st (Instr.pushg entry.offset)) = .ok st2 ∧
          st' = emits st2 [Instr.pushi entry.arrayDetails.lowBound, Instr.sub, Instr.loadn]) :=
  ⟨fun _ v dtl scope off dt expr st st' entry hlk hok =>
      assign_indexed_lit hlk hok,
   fun _ ie scope off dt expr st st' entry hlk hnl hok =>
      assign_indexed_dyn hlk hnl hok,
   fun _ v dtl scope off dt st st' entry hlk hkp hini hok =>
      varload_indexed_lit hlk hkp hini hok,
   fun _ ie scope off dt st st' entry hlk hkp hini hnl hok =>
      varload_indexed_dyn hlk hkp hini hnl hok⟩

def c3wst : GenSt :=
  ⟨0, [[{ name := "b", kind := SymbolKind.VARIABLE,
          type := EntryTypeCategory.ARRAY, offset := 4,
          arrayDetails := ⟨EntryTypeCategory.PRIMITIVE_INTEGER, 3, 9, true⟩ }]],
   0, 0, Option.none, []⟩

/-- Witness for C3 (amended) at a concrete load b[5] on a VARIABLE
array with bounds [3,9]: the emitted load carries offset 5 - 3 = 2. -/
theorem c3_array_offset_witness :
    ({ c3wst with code := [Instr.pushg 4, Instr.load 2] } : GenSt) = emitI
      (if SymbolScope.GLOBAL_SCOPE = SymbolScope.LOCAL_SCOPE
       then emitI c3wst (Instr.pushl 4) else emitI c3wst (Instr.pushg 4))
      (Instr.load (5 - 3)) :=
  c3_array_offset.2.2.1 "b" 5 EntryTypeCategory.PRIMITIVE_INTEGER
    SymbolScope.GLOBAL_SCOPE 4 EntryTypeCategory.PRIMITIVE_INTEGER c3wst
    { c3wst with code := [Instr.pushg 4, Instr.load 2] }
    { name := "b", kind := SymbolKind.VARIABLE,
      type := EntryTypeCategory.ARRAY, offset := 4,
      arrayDetails := ⟨EntryTypeCategory.PRIMITIVE_INTEGER, 3, 9, true⟩ }
    rfl (by simp) rfl rfl


theorem count_emitI_ne (s : GenSt) (i : Instr) (hne : i ≠ Instr.itof) :
    List.count Instr.itof (emitI s i).code = List.count Instr.itof s.code := by
  simp [emitI, List.count_append, List.count_cons, List.count_nil, hne]

theorem count_emitI_itof (s : GenSt) :
    List.count Instr.itof (emitI s Instr.itof).code =
      List.count Instr.itof s.code + 1 := by
  simp [emitI, List.count_append, List.count_cons, List.count_nil]

/-- Claim C10: an assignment to an array element never inserts an
integer-to-real coercion on the right-hand side, for any combination of
determined types (in particular a real element type with an integer
expression): the store (direct or indirect) follows the right-hand
code immediately and the itof count of the stream is unchanged from the
end of the right-hand code to the final state; by contrast, a
non-indexed assignment to a real-typed target from an integer-typed
expression does insert exactly one itof after the right-hand code. -/
theorem c10_no_itof_on_indexed_store :
    (∀ (ident : String) (v : Int) (dtl : EntryTypeCategory) (scope : SymbolScope)
        (off : Int) (dt : EntryTypeCategory) (expr : Expr) (st st' : GenSt)
        (entry : SymbolEntry),
        lookupSymbol st.symtab ident = some entry →
        genStmt (Stmt.assign
          (Expr.varNode ident (some (Expr.intNum v dtl)) scope off dt) expr) st = .ok st' →
        ∃ stm, genExpr expr
            (if scope = SymbolScope.LOCAL_SCOPE then emitI st (Instr.pushl off)
             else emitI st (Instr.pushg off)) = .ok stm ∧
          st' = emitI stm (Instr.store (v - entry.arrayDetails.lowBound)) ∧
          List.count Instr.itof st'.code = List.count Instr.itof stm.code) ∧
    (∀ (ident : String) (ie : Expr) (scope : SymbolScope) (off : Int)
        (dt : EntryTypeCategory) (expr : Expr) (st st' : GenSt) (entry : SymbolEntry),
        lookupSymbol st.symtab ident = some entry →
        (∀ (v : Int) (dtl : EntryTypeCategory), ie ≠ Expr.intNum v dtl) →
        genStmt (Stmt.assign
          (Expr.varNode ident (some ie) scope off dt) expr) st = .ok st' →
        ∃ st2 st4, genExpr ie
            (if scope = SymbolScope.LOCAL_SCOPE then emitI st (Instr.pushl off)
             else emitI st (Instr.pushg off)) = .ok st2 ∧
          genExpr expr (emits st2 [Instr.pushi entry.arrayDetails.lowBound, Instr.sub]) =
            .ok st4 ∧
          st' = emitI st4 Instr.storen ∧
          List.count Instr.itof st'.code = List.count Instr.itof st4.code) ∧
    (∀ (ident : String) (scope : SymbolScope) (off : Int) (expr : Expr)
        (st st' : GenSt),
        expr.determinedType = EntryTypeCategory.PRIMITIVE_INTEGER →
        genStmt (Stmt.assign
          (Expr.varNode ident Option.none scope off EntryTypeCategory.PRIMITIVE_REAL)
          expr) st = .ok st' →
        ∃ stm, genExpr expr st = .ok stm ∧
          List.count Instr.itof st'.code = List.count Instr.itof stm.code + 1) := by
  refine ⟨?_, ?_, ?_⟩
  · intro ident v dtl scope off dt expr st st' entry hlk hok
    obtain ⟨stm, h1, h2⟩ := assign_indexed_lit hlk hok
    refine ⟨stm, h1, h2, ?_⟩
    rw [h2]
    exact count_emitI_ne stm _ (by simp)
  · intro ident ie scope off dt expr st st' entry hlk hnl hok
    obtain ⟨st2, st4, h1, h2, h3⟩ := assign_indexed_dyn hlk hnl hok
    refine ⟨st2, st4, h1, h2, h3, ?_⟩
    rw [h3]
    exact count_emitI_ne st4 _ (by simp)
  · intro ident scope off expr st st' hty hok
    simp only [genStmt, bind, Except.bind] at hok
    split at hok
    · exact Except.noConfusion hok
    · rename_i st1 hexp
      rw [if_pos (by exact ⟨(by trivial), hty⟩)] at hok
      refine ⟨st1, hexp, ?_⟩
      split at hok
      · exact Except.noConfusion hok
      · rename_i entry hlk2
        have hstep : List.count Instr.itof (emitI st1 Instr.itof).code =
            List.count Instr.itof st1.code + 1 := count_emitI_itof st1
        split at hok
        · rw [ok_inv hok, count_emitI_ne _ _ (by simp), hstep]
        · split at hok
          · rw [ok_inv hok, count_emitI_ne _ _ (by simp), hstep]
          · rw [ok_inv hok, count_emitI_ne _ _ (by simp), hstep]

def c10st : GenSt :=
  ⟨0, [[{ name := "c", kind := SymbolKind.VARIABLE,
          type := EntryTypeCategory.ARRAY, offset := 0,
          arrayDetails := ⟨EntryTypeCategory.PRIMITIVE_REAL, 0, 4, true⟩ }]],
   0, 0, Option.none, []⟩

/-- Witness for C10 at a concrete indexed store c[2] := 7 into a
real-element array from an integer literal: the stream is
pushg 0; pushi 7; store 2 with no itof anywhere. -/
theorem c10_no_itof_on_indexed_store_witness :
    ∃ stm, genExpr (Expr.intNum 7 EntryTypeCategory.PRIMITIVE_INTEGER)
        (if SymbolScope.GLOBAL_SCOPE = SymbolScope.LOCAL_SCOPE
         then emitI c10st (Instr.pushl 0) else emitI c10st (Instr.pushg 0)) = .ok stm ∧
      ({ c10st with code := [Instr.pushg 0, Instr.pushi 7, Instr.store 2] } : GenSt) =
        emitI stm (Instr.store (2 - 0)) ∧
      List.count Instr.itof
          ({ c10st with
            code := [Instr.pushg 0, Instr.pushi 7, Instr.store 2] } : GenSt).code =
        List.count Instr.itof stm.code :=
  c10_no_itof_on_indexed_store.1 "c" 2 EntryTypeCategory.PRIMITIVE_INTEGER
    SymbolScope.GLOBAL_SCOPE 0 EntryTypeCategory.PRIMITIVE_REAL
    (Expr.intNum 7 EntryTypeCategory.PRIMITIVE_INTEGER) c10st
    { c10st with code := [Instr.pushg 0, Instr.pushi 7, Instr.store 2] }
    { name := "c", kind := SymbolKind.VARIABLE,
      type := EntryTypeCategory.ARRAY, offset := 0,
      arrayDetails := ⟨EntryTypeCategory.PRIMITIVE_REAL, 0, 4, true⟩ }
    rfl rfl


/-- Modelled from the spec: an operation is real-valued if either
operand's resolved type is real, or the operator is division (always
real division); logical AND/OR are never treated as real-valued
regardless of operand types. -/
def specRealValued (op : String) (lt rt : EntryTypeCategory) : Prop :=
  (lt = EntryTypeCategory.PRIMITIVE_REAL ∨ rt = EntryTypeCategory.PRIMITIVE_REAL ∨
    op = "/") ∧ ¬ (op = "AND_OP" ∨ op = "OR_OP")

def c5st : GenSt := ⟨0, [[]], 0, 0, Option.none, []⟩

/-- Counterexample to Claim C5 as stated: the integer-with-integer
division 1 / 2 is a real-valued operation (the operator is /), and
both operands receive an itof coercion, so an integer-with-integer
operation can emit two coercions, not zero. -/
theorem c5_counterexample :
    genExpr (Expr.binaryOp "/"
        (Expr.intNum 1 EntryTypeCategory.PRIMITIVE_INTEGER)
        (Expr.intNum 2 EntryTypeCategory.PRIMITIVE_INTEGER)
        EntryTypeCategory.PRIMITIVE_REAL) c5st =
      .ok { c5st with code :=
        [Instr.pushi 1, Instr.itof, Instr.pushi 2, Instr.itof, Instr.fdiv] } ∧
    List.count Instr.itof
        [Instr.pushi 1, Instr.itof, Instr.pushi 2, Instr.itof, Instr.fdiv] = 2 ∧
    (Expr.intNum 1 EntryTypeCategory.PRIMITIVE_INTEGER).determinedType =
      EntryTypeCategory.PRIMITIVE_INTEGER ∧
    (Expr.intNum 2 EntryTypeCategory.PRIMITIVE_INTEGER).determinedType =
      EntryTypeCategory.PRIMITIVE_INTEGER :=
  ⟨rfl, by decide, rfl, rfl⟩

/-- Claim C5 (amended): the generator's is_real_op flag agrees exactly
with the spec's notion of real-valued operation (some operand real or
operator /, except AND/OR), and a successful binary operation lowers
to: the left operand's code, an itof exactly when the operation is
real-valued and the left operand is integer-typed, the right operand's
code, an itof exactly when the operation is real-valued and the right
operand is integer-typed, then the operator's instruction tail. In
particular a mixed integer/real operation coerces only the integer
side, a real-with-real operation emits no coercion, and an
integer-with-integer operation emits no coercion unless the operator
is /, in which case both sides are coerced. -/
theorem c5_real_op_coercions :
    (∀ (op : String) (lt rt : EntryTypeCategory),
        isRealOp op lt rt = true ↔ specRealValued op lt rt) ∧
    (∀ (op : String) (l r : Expr) (dt : EntryTypeCategory) (st st' : GenSt),
        genExpr (Expr.binaryOp op l r dt) st = .ok st' →
        ∃ st1 st3 tail,
          genExpr l st = .ok st1 ∧
          genExpr r
            (if isRealOp op l.determinedType r.determinedType = true ∧
                l.determinedType = EntryTypeCategory.PRIMITIVE_INTEGER
             then emitI st1 Instr.itof else st1) = .ok st3 ∧
          binOpInstrs op (isRealOp op l.determinedType r.determinedType) = some tail ∧
          st' = emits
            (if isRealOp op l.determinedType r.determinedType = true ∧
                r.determinedType = EntryTypeCategory.PRIMITIVE_INTEGER
             then emitI st3 Instr.itof else st3) tail) := by
  constructor
  · intro op lt rt
    by_cases h : op = "AND_OP" ∨ op = "OR_OP"
    · simp [isRealOp, specRealValued, h]
    · simp [isRealOp, specRealValued, h]
  · intro op l r dt st st' hok
    rw [genExpr.eq_9] at hok
    dsimp only at hok
    simp only [bind, Except.bind] at hok
    split at hok
    · exact Except.noConfusion hok
    · rename_i st1 h1
      split at hok
      · exact Except.noConfusion hok
      · rename_i st3 h3
        split at hok
        · rename_i tail htail
          exact ⟨st1, st3, tail, h1, h3, htail, ok_inv hok⟩
        · exact Except.noConfusion hok

/-- Witness for C5 (amended) at the concrete mixed-type sum
3 + 2.5: the left (integer) side gets exactly one itof, the right
(real) side none, and the tail is fadd. -/
theorem c5_real_op_coercions_witness :
    ∃ st1 st3 tail,
      genExpr (Expr.intNum 3 EntryTypeCategory.PRIMITIVE_INTEGER) c5st = .ok st1 ∧
      genExpr (Expr.realNum "2.5" EntryTypeCategory.PRIMITIVE_REAL)
        (if isRealOp "+" (Expr.intNum 3 EntryTypeCategory.PRIMITIVE_INTEGER).determinedType
              (Expr.realNum "2.5" EntryTypeCategory.PRIMITIVE_REAL).determinedType = true ∧
            (Expr.intNum 3 EntryTypeCategory.PRIMITIVE_INTEGER).determinedType =
              EntryTypeCategory.PRIMITIVE_INTEGER
         then emitI st1 Instr.itof else st1) = .ok st3 ∧
      binOpInstrs "+"
        (isRealOp "+" (Expr.intNum 3 EntryTypeCategory.PRIMITIVE_INTEGER).determinedType
          (Expr.realNum "2.5" EntryTypeCategory.PRIMITIVE_REAL).determinedType) =
        some tail ∧
      ({ c5st with code :=
          [Instr.pushi 3, Instr.itof, Instr.pushf "2.5", Instr.fadd] } : GenSt) = emits
        (if isRealOp "+" (Expr.intNum 3 EntryTypeCategory.PRIMITIVE_INTEGER).determinedType
              (Expr.realNum "2.5" EntryTypeCategory.PRIMITIVE_REAL).determinedType = true ∧
            (Expr.realNum "2.5" EntryTypeCategory.PRIMITIVE_REAL).determinedType =
              EntryTypeCategory.PRIMITIVE_INTEGER
         then emitI st3 Instr.itof else st3) tail :=
  c5_real_op_coercions.2 "+"
    (Expr.intNum 3 EntryTypeCategory.PRIMITIVE_INTEGER)
    (Expr.realNum "2.5" EntryTypeCategory.PRIMITIVE_REAL)
    EntryTypeCategory.PRIMITIVE_REAL c5st
    { c5st with code := [Instr.pushi 3, Instr.itof, Instr.pushf "2.5", Instr.fadd] }
    rfl


/-- The PARAMETER entries created for one identifier group, with
offsets assigned from the running counter. -/
def paramEntriesFrom (tp : EntryTypeCategory) (ad : ArrayDetails) :
    List Ident → Int → List SymbolEntry
  | [], _ => []
  | ident :: rest, off =>
    mkParamEntry tp ad ident off :: paramEntriesFrom tp ad rest (off + 1)

/-- The PARAMETER entries created for a whole parameter list, in
declaration order. -/
def paramListEntriesFrom : List ParameterDeclaration → Int → List SymbolEntry
  | [], _ => []
  | p :: rest, off =>
    paramEntriesFrom (astToSymbolType p.type).1 (astToSymbolType p.type).2 p.ids off ++
      paramListEntriesFrom rest (off + p.ids.length)

/-- Total number of declared parameter identifiers. -/
def totalIds : List ParameterDeclaration → Nat
  | [] => 0
  | p :: rest => p.ids.length + totalIds rest

/-- Parameter identifier names in declaration order. -/
def paramNames : List ParameterDeclaration → List String
  | [] => []
  | p :: rest => p.ids.map (fun i => i.name) ++ paramNames rest

theorem addParams_scope (tp : EntryTypeCategory) (ad : ArrayDetails) :
    ∀ (ids : List Ident) (st : GenSt) (s : List SymbolEntry)
      (rtab : List (List SymbolEntry)),
      st.symtab = s :: rtab →
      (addParams tp ad ids st).symtab =
        (s ++ paramEntriesFrom tp ad ids st.param_offset) :: rtab ∧
      (addParams tp ad ids st).param_offset = st.param_offset + ids.length := by
  intro ids
  induction ids with
  | nil =>
    intro st s rtab h
    exact ⟨by simp [addParams, paramEntriesFrom, h], by simp [addParams]⟩
  | cons i rest ih =>
    intro st s rtab h
    have hst : ({ st with
        symtab := addSymbol st.symtab (mkParamEntry tp ad i st.param_offset),
        param_offset := st.param_offset + 1 } : GenSt).symtab =
        (s ++ [mkParamEntry tp ad i st.param_offset]) :: rtab := by
      show addSymbol st.symtab _ = _
      rw [h]
      rfl
    obtain ⟨h1, h2⟩ := ih _ _ rtab hst
    constructor
    · rw [addParams, h1]
      dsimp only
      simp [paramEntriesFrom, List.append_assoc]
    · rw [addParams, h2]
      dsimp only
      simp only [List.length_cons]
      push_cast
      ring

theorem genParameterList_scope :
    ∀ (l : List ParameterDeclaration) (st : GenSt) (s : List SymbolEntry)
      (rtab : List (List SymbolEntry)),
      st.symtab = s :: rtab →
      (genParameterList l st).symtab =
        (s ++ paramListEntriesFrom l st.param_offset) :: rtab ∧
      (genParameterList l st).param_offset = st.param_offset + totalIds l := by
  intro l
  induction l with
  | nil =>
    intro st s rtab h
    exact ⟨by simp [genParameterList, paramListEntriesFrom, h], by simp [genParameterList, totalIds]⟩
  | cons p rest ih =>
    intro st s rtab h
    obtain ⟨a1, a2⟩ :=
      addParams_scope (astToSymbolType p.type).1 (astToSymbolType p.type).2 p.ids st s rtab h
    have hgpd : genParameterDeclaration p st = addParams (astToSymbolType p.type).1
        (astToSymbolType p.type).2 p.ids st := rfl
    obtain ⟨h1, h2⟩ := ih (genParameterDeclaration p st) _ rtab (by rw [hgpd]; exact a1)
    constructor
    · show (genParameterList rest (genParameterDeclaration p st)).symtab = _
      rw [h1, hgpd, a2]
      simp [paramListEntriesFrom, List.append_assoc]
    · show (genParameterList rest (genParameterDeclaration p st)).param_offset = _
      rw [h2, hgpd, a2]
      simp only [totalIds]
      push_cast
      ring

theorem paramEntriesFrom_offsets (tp : EntryTypeCategory) (ad : ArrayDetails) :
    ∀ (ids : List Ident) (off : Int),
      (paramEntriesFrom tp ad ids off).map (fun e => e.offset) =
        (List.range ids.length).map (fun (i : Nat) => off + (i : Int)) := by
  intro ids
  induction ids with
  | nil => intro off; rfl
  | cons i rest ih =>
    intro off
    simp only [paramEntriesFrom, List.map_cons, List.length_cons,
      List.range_succ_eq_map, List.map_map, ih]
    congr 1
    · simp [mkParamEntry]
    · apply List.map_congr_left
      intro a _
      simp only [Function.comp_apply, Nat.succ_eq_add_one]
      push_cast
      ring

theorem paramListEntriesFrom_offsets :
    ∀ (l : List ParameterDeclaration) (off : Int),
      (paramListEntriesFrom l off).map (fun e => e.offset) =
        (List.range (totalIds l)).map (fun (i : Nat) => off + (i : Int)) := by
  intro l
  induction l with
  | nil => intro off; rfl
  | cons p rest ih =>
    intro off
    simp only [paramListEntriesFrom, List.map_append, paramEntriesFrom_offsets, ih,
      totalIds, List.range_add, List.map_map]
    congr 1
    apply List.map_congr_left
    intro a _
    simp only [Function.comp_apply]
    push_cast
    ring

theorem paramEntriesFrom_names (tp : EntryTypeCategory) (ad : ArrayDetails) :
    ∀ (ids : List Ident) (off : Int),
      (paramEntriesFrom tp ad ids off).map (fun e => e.name) =
        ids.map (fun i => i.name) := by
  intro ids
  induction ids with
  | nil => intro off; rfl
  | cons i rest ih =>
    intro off
    simp [paramEntriesFrom, mkParamEntry, ih]

theorem paramListEntriesFrom_names :
    ∀ (l : List ParameterDeclaration) (off : Int),
      (paramListEntriesFrom l off).map (fun e => e.name) = paramNames l := by
  intro l
  induction l with
  | nil => intro off; rfl
  | cons p rest ih =>
    intro off
    simp [paramListEntriesFrom, paramNames, paramEntriesFrom_names, ih]

theorem paramEntriesFrom_kind (tp : EntryTypeCategory) (ad : ArrayDetails) :
    ∀ (ids : List Ident) (off : Int) (e : SymbolEntry),
      e ∈ paramEntriesFrom tp ad ids off → e.kind = SymbolKind.PARAMETER := by
  intro ids
  induction ids with
  | nil => intro off e h; simp [paramEntriesFrom] at h
  | cons i rest ih =>
    intro off e h
    simp only [paramEntriesFrom, List.mem_cons] at h
    cases h with
    | inl h => rw [h]; rfl
    | inr h => exact ih _ e h

theorem paramListEntriesFrom_kind :
    ∀ (l : List ParameterDeclaration) (off : Int) (e : SymbolEntry),
      e ∈ paramListEntriesFrom l off → e.kind = SymbolKind.PARAMETER := by
  intro l
  induction l with
  | nil => intro off e h; simp [paramListEntriesFrom] at h
  | cons p rest ih =>
    intro off e h
    simp only [paramListEntriesFrom, List.mem_append] at h
    cases h with
    | inl h => exact paramEntriesFrom_kind _ _ _ _ e h
    | inr h => exact ih _ e h

/-- Claim C6: visit(ParameterList) re-creates one PARAMETER entry per
declared identifier in the current (innermost) scope, in declaration
order, with offsets assigned consecutively from the running counter
(0, 1, 2, ... when the counter starts at 0); and every read (VariableNode
or IdExprNode) and every non-indexed store of a symbol whose entry has
kind PARAMETER emits a pushl/storel with frame-relative operand
-(offset + 1), regardless of the reference's declared scope. -/
theorem c6_parameter_offsets :
    (∀ (l : List ParameterDeclaration) (st : GenSt) (s : List SymbolEntry)
        (rtab : List (List SymbolEntry)),
        st.symtab = s :: rtab →
        (genParameterList l st).symtab =
          (s ++ paramListEntriesFrom l st.param_offset) :: rtab ∧
        (genParameterList l st).param_offset = st.param_offset + totalIds l) ∧
    (∀ (l : List ParameterDeclaration),
        (paramListEntriesFrom l 0).map (fun e => e.offset) =
          (List.range (totalIds l)).map (fun (i : Nat) => (i : Int))) ∧
    (∀ (l : List ParameterDeclaration) (off : Int),
        (paramListEntriesFrom l off).map (fun e => e.name) = paramNames l) ∧
    (∀ (l : List ParameterDeclaration) (off : Int) (e : SymbolEntry),
        e ∈ paramListEntriesFrom l off → e.kind = SymbolKind.PARAMETER) ∧
    (∀ (ident : String) (idx : Option Expr) (scope : SymbolScope) (off : Int)
        (dt : EntryTypeCategory) (st : GenSt) (entry : SymbolEntry),
        lookupSymbol st.symtab ident = some entry →
        entry.kind = SymbolKind.PARAMETER →
        genExpr (Expr.varNode ident idx scope off dt) st =
          .ok (emitI st (Instr.pushl (-(entry.offset + 1))))) ∧
    (∀ (ident : String) (kind : SymbolKind) (scope : SymbolScope)
        (dt : EntryTypeCategory) (st : GenSt) (entry : SymbolEntry),
        ¬ kind = SymbolKind.FUNCTION →
        lookupSymbol st.symtab ident = some entry →
        entry.kind = SymbolKind.PARAMETER →
        genExpr (Expr.idExpr ident kind scope dt) st =
          .ok (emitI st (Instr.pushl (-(entry.offset + 1))))) ∧
    (∀ (ident : String) (scope : SymbolScope) (off : Int) (dt : EntryTypeCategory)
        (expr : Expr) (st st' : GenSt),
        genStmt (Stmt.assign (Expr.varNode ident Option.none scope off dt) expr) st =
          .ok st' →
        ∃ st1, genExpr expr st = .ok st1 ∧
          ∀ (entry : SymbolEntry),
            lookupSymbol
              (if dt = EntryTypeCategory.PRIMITIVE_REAL ∧
                  expr.determinedType = EntryTypeCategory.PRIMITIVE_INTEGER
               then emitI st1 Instr.itof else st1).symtab ident = some entry →
            entry.kind = SymbolKind.PARAMETER →
            st' = emitI
              (if dt = EntryTypeCategory.PRIMITIVE_REAL ∧
                  expr.determinedType = EntryTypeCategory.PRIMITIVE_INTEGER
               then emitI st1 Instr.itof else st1)
              (Instr.storel (-(entry.offset + 1)))) := by
  refine ⟨genParameterList_scope, ?_, paramListEntriesFrom_names,
    paramListEntriesFrom_kind, ?_, ?_, ?_⟩
  · intro l
    rw [paramListEntriesFrom_offsets l 0]
    simp
  · intro ident idx scope off dt st entry hlk hk
    rw [genExpr.eq_5]
    simp only [hlk]
    rw [if_pos hk]
  · intro ident kind scope dt st entry hkf hlk hk
    rw [genExpr.eq_6]
    rw [if_neg hkf]
    simp only [hlk]
    rw [if_pos hk]
  · intro ident scope off dt expr st st' hok
    simp only [genStmt, bind, Except.bind] at hok
    split at hok
    · exact Except.noConfusion hok
    · rename_i st1 h1
      refine ⟨st1, h1, ?_⟩
      intro entry hlk hk
      rw [hlk] at hok
      dsimp only at hok
      rw [if_pos hk] at hok
      exact ok_inv hok

def c6st : GenSt :=
  ⟨0, [[{ name := "p", kind := SymbolKind.PARAMETER, offset := 2 }]],
   0, 0, Option.none, []⟩

/-- Witness for C6 at a concrete read of parameter p with offset 2,
referenced with GLOBAL scope annotation: the emitted instruction is
pushl -(2+1) = pushl -3. -/
theorem c6_parameter_offsets_witness :
    genExpr (Expr.varNode "p" Option.none SymbolScope.GLOBAL_SCOPE 0
        EntryTypeCategory.PRIMITIVE_INTEGER) c6st =
      .ok (emitI c6st (Instr.pushl (-(2 + 1)))) :=
  c6_parameter_offsets.2.2.2.2.1 "p" Option.none SymbolScope.GLOBAL_SCOPE 0
    EntryTypeCategory.PRIMITIVE_INTEGER c6st
    { name := "p", kind := SymbolKind.PARAMETER, offset := 2 } rfl rfl


theorem emitI_symtab (st : GenSt) (i : Instr) : (emitI st i).symtab = st.symtab := rfl

/-- The expected allocation block of the per-identifier array loop: one
alloc of the computed size, then one storeg/storel of the handle into
the identifier's slot, for each identifier in order; none when some
identifier is missing from the symbol table. -/
def allocStoresSpec (tab : List (List SymbolEntry)) (g : Bool) (size : Int) :
    List Ident → Option (List Instr)
  | [] => some []
  | id :: rest =>
    match lookupSymbol tab id.name with
    | Option.none => Option.none
    | some entry =>
      match allocStoresSpec tab g size rest with
      | Option.none => Option.none
      | some tl =>
        some (Instr.alloc size ::
          (if g then Instr.storeg entry.offset else Instr.storel entry.offset) :: tl)

theorem genArrayAllocs_spec :
    ∀ (ids : List Ident) (size : Int) (st st' : GenSt),
      genArrayAllocs ids size st = .ok st' →
      ∃ Δ, allocStoresSpec st.symtab (isGlobalScope st.symtab) size ids = some Δ ∧
        st' = withCode st Δ := by
  intro ids
  induction ids with
  | nil =>
    intro size st st' h
    cases h
    exact ⟨[], rfl, by simp [withCode]⟩
  | cons id rest ih =>
    intro size st st' h
    simp only [genArrayAllocs] at h
    split at h
    · exact Except.noConfusion h
    · rename_i entry hlk
      try dsimp only at h
      simp only [emitI_symtab] at h
      by_cases hg : isGlobalScope st.symtab
      · rw [if_pos hg] at h
        obtain ⟨Δr, hs, hw⟩ := ih size _ st' h
        simp only [emitI_symtab] at hs
        refine ⟨Instr.alloc size :: Instr.storeg entry.offset :: Δr, ?_, ?_⟩
        · simp only [hg] at hs
          simp only [allocStoresSpec, hlk, hg, hs, if_true]
        · rw [hw]
          simp [withCode, emitI, List.append_assoc]
      · rw [if_neg hg] at h
        obtain ⟨Δr, hs, hw⟩ := ih size _ st' h
        simp only [emitI_symtab] at hs
        refine ⟨Instr.alloc size :: Instr.storel entry.offset :: Δr, ?_, ?_⟩
        · simp only [allocStoresSpec, hlk, hs]
          rw [if_neg hg]
        · rw [hw]
          simp [withCode, emitI, List.append_assoc]

theorem genVarDecl_array_eq (ids : List Ident) (et : Option StandardTypeCategory)
    (lo hi : Int) (st : GenSt) :
    genVarDecl ⟨ids, TypeNode.arrayType et lo hi⟩ st =
      (if hi - lo + 1 ≤ 0 then .error ("Array size must be positive.", st)
       else genArrayAllocs ids (hi - lo + 1) st) := by
  have h1 : (astToSymbolType (TypeNode.arrayType et lo hi)).1 =
      EntryTypeCategory.ARRAY := rfl
  unfold genVarDecl
  simp [h1]

/-- Claim C7: for an array declaration with bounds [lo, hi], a
non-positive computed size hi - lo + 1 raises the fatal array-size
error with no instruction emitted (the state is unchanged); otherwise
a successful run emits, for each declared identifier in order, exactly
one alloc of the size followed by one store of the handle into the
identifier's slot (storeg at global scope, storel otherwise), and
nothing else. -/
theorem c7_array_allocation :
    (∀ (ids : List Ident) (et : Option StandardTypeCategory) (lo hi : Int)
        (st : GenSt),
        hi - lo + 1 ≤ 0 →
        genVarDecl ⟨ids, TypeNode.arrayType et lo hi⟩ st =
          .error ("Array size must be positive.", st)) ∧
    (∀ (ids : List Ident) (et : Option StandardTypeCategory) (lo hi : Int)
        (st st' : GenSt),
        genVarDecl ⟨ids, TypeNode.arrayType et lo hi⟩ st = .ok st' →
        hi - lo + 1 > 0 ∧
        ∃ Δ, allocStoresSpec st.symtab (isGlobalScope st.symtab) (hi - lo + 1) ids =
            some Δ ∧
          st' = withCode st Δ) := by
  constructor
  · intro ids et lo hi st hsz
    rw [genVarDecl_array_eq, if_pos hsz]
  · intro ids et lo hi st st' h
    rw [genVarDecl_array_eq] at h
    by_cases hsz : hi - lo + 1 ≤ 0
    · rw [if_pos hsz] at h
      exact Except.noConfusion h
    · rw [if_neg hsz] at h
      exact ⟨by omega, genArrayAllocs_spec ids _ st st' h⟩

def c7wst : GenSt :=
  ⟨0, [[{ name := "a", kind := SymbolKind.VARIABLE,
          type := EntryTypeCategory.ARRAY, offset := 0 }]],
   0, 0, Option.none, []⟩

/-- Witness for C7 at the concrete global declaration a : array[1..3]:
size 3 is positive and the emitted block is alloc 3; storeg 0. -/
theorem c7_array_allocation_witness :
    (3 : Int) - 1 + 1 > 0 ∧
    ∃ Δ, allocStoresSpec c7wst.symtab (isGlobalScope c7wst.symtab) (3 - 1 + 1)
        [⟨"a", 0, 0⟩] = some Δ ∧
      ({ c7wst with code := [Instr.alloc 3, Instr.storeg 0] } : GenSt) =
        withCode c7wst Δ :=
  c7_array_allocation.2 [⟨"a", 0, 0⟩] (some StandardTypeCategory.TYPE_INTEGER)
    1 3 c7wst { c7wst with code := [Instr.alloc 3, Instr.storeg 0] } rfl


/-- Claim C8: lowering an if-statement first reserves two fresh
counter labels (else at the entry counter, end-if at the next one),
then emits the condition's code, exactly one jz to the else label, the
then-branch's code, and - only when an else branch exists - exactly
one unconditional jump to the end label; the else label follows, then
the else branch's code strictly between the two labels, then the end
label.  Without an else branch no unconditional jump is emitted and
the else label is the fallthrough point after a false condition,
immediately followed by the end label. -/
theorem c8_if_lowering :
    (∀ (cond : Expr) (thenS es : Stmt) (st st' : GenSt),
        genStmt (Stmt.ifStmt cond thenS (some es)) st = .ok st' →
        ∃ st1 st3 st6,
          genExpr cond { st with labelCounter := st.labelCounter + 2 } = .ok st1 ∧
          genStmt thenS (emitI st1 (Instr.jz (ctrLabel "ELSE" st.labelCounter))) =
            .ok st3 ∧
          genStmt es (emitLabel
              (emitI st3 (Instr.jump (ctrLabel "END_IF" (st.labelCounter + 1))))
              (ctrLabel "ELSE" st.labelCounter)) = .ok st6 ∧
          st' = emitLabel st6 (ctrLabel "END_IF" (st.labelCounter + 1))) ∧
    (∀ (cond : Expr) (thenS : Stmt) (st st' : GenSt),
        genStmt (Stmt.ifStmt cond thenS Option.none) st = .ok st' →
        ∃ st1 st3,
          genExpr cond { st with labelCounter := st.labelCounter + 2 } = .ok st1 ∧
          genStmt thenS (emitI st1 (Instr.jz (ctrLabel "ELSE" st.labelCounter))) =
            .ok st3 ∧
          st' = emitLabel (emitLabel st3 (ctrLabel "ELSE" st.labelCounter))
            (ctrLabel "END_IF" (st.labelCounter + 1))) := by
  constructor
  · intro cond thenS es st st' hok
    simp only [genStmt, bind, Except.bind] at hok
    try dsimp only at hok
    split at hok
    · exact Except.noConfusion hok
    · rename_i st1 h1
      split at hok
      · exact Except.noConfusion hok
      · rename_i st3 h3
        split at hok
        · exact Except.noConfusion hok
        · rename_i st6 h6
          exact ⟨st1, st3, st6, h1, h3, h6, ok_inv hok⟩
  · intro cond thenS st st' hok
    simp only [genStmt, bind, Except.bind] at hok
    try dsimp only at hok
    split at hok
    · exact Except.noConfusion hok
    · rename_i st1 h1
      split at hok
      · exact Except.noConfusion hok
      · rename_i st3 h3
        exact ⟨st1, st3, h1, h3, ok_inv hok⟩

def c8st : GenSt := ⟨0, [[]], 0, 0, Option.none, []⟩

/-- Witness for C8 at the concrete statement
if true then (empty) else (empty), starting at counter 0: the stream
is pushi 1; jz L_ELSE_0; jump L_END_IF_1; L_ELSE_0:; L_END_IF_1:. -/
theorem c8_if_lowering_witness :
    ∃ st1 st3 st6,
      genExpr (Expr.booleanLiteral true EntryTypeCategory.PRIMITIVE_BOOLEAN)
        { c8st with labelCounter := c8st.labelCounter + 2 } = .ok st1 ∧
      genStmt (Stmt.compound [])
        (emitI st1 (Instr.jz (ctrLabel "ELSE" c8st.labelCounter))) = .ok st3 ∧
      genStmt (Stmt.compound []) (emitLabel
          (emitI st3 (Instr.jump (ctrLabel "END_IF" (c8st.labelCounter + 1))))
          (ctrLabel "ELSE" c8st.labelCounter)) = .ok st6 ∧
      (⟨2, [[]], 0, 0, Option.none,
        [Instr.pushi 1, Instr.jz "L_ELSE_0", Instr.jump "L_END_IF_1",
         Instr.label "L_ELSE_0", Instr.label "L_END_IF_1"]⟩ : GenSt) =
        emitLabel st6 (ctrLabel "END_IF" (c8st.labelCounter + 1)) :=
  c8_if_lowering.1 (Expr.booleanLiteral true EntryTypeCategory.PRIMITIVE_BOOLEAN)
    (Stmt.compound []) (Stmt.compound []) c8st
    ⟨2, [[]], 0, 0, Option.none,
      [Instr.pushi 1, Instr.jz "L_ELSE_0", Instr.jump "L_END_IF_1",
       Instr.label "L_ELSE_0", Instr.label "L_END_IF_1"]⟩ rfl


/-- Claim C9: for a subprogram declaration whose head is a procedure,
a successful visit emits a return instruction unconditionally right
after the body's code and immediately before the end label, so every
generated procedure body ends with ret even when the source contains
no return statement (the body here is optional and may be absent
entirely). -/
theorem c9_procedure_ret :
    ∀ (sd : SubprogramDeclaration) (st st' : GenSt),
      sd.head.isFunction = false →
      genSubprogramDeclaration sd st = .ok st' →
      ∃ entry st4 st5,
        lookupSymbol st.symtab (mangledKeyFor sd.head) = some entry ∧
        genDeclarationsOpt sd.local_declarations
          (genArguments sd.head.arguments
            { emitLabel (emitI { st with currentSubprogramEntry := some entry }
                (Instr.jump (entry.getMangledName ++ "_end"))) entry.getMangledName with
              symtab := enterScope st.symtab, local_offset := 0, param_offset := 0 }) =
          .ok st4 ∧
        genStmtOpt sd.body st4 = .ok st5 ∧
        st' = { emitLabel (emitI st5 Instr.ret) (entry.getMangledName ++ "_end") with
                symtab := exitScope st5.symtab,
                currentSubprogramEntry := st.currentSubprogramEntry } := by
  intro sd st st' hfun hok
  unfold genSubprogramDeclaration at hok
  dsimp only at hok
  split at hok
  · exact Except.noConfusion hok
  · rename_i entry hlk
    simp only [bind, Except.bind] at hok
    split at hok
    · exact Except.noConfusion hok
    · rename_i st4 hdecl
      split at hok
      · exact Except.noConfusion hok
      · rename_i st5 hbody
        simp only [hfun, Bool.false_eq_true, if_false] at hok
        exact ⟨entry, st4, st5, hlk, hdecl, hbody, ok_inv hok⟩

def c9st : GenSt :=
  ⟨0, [[{ name := "p_q", kind := SymbolKind.PROCEDURE, mangledName := "p_q" }]],
   0, 0, Option.none, []⟩

/-- Witness for C9 at the concrete empty procedure q (no arguments, no
locals, no body): the emitted block is jump p_q_end; p_q:; ret;
p_q_end:, with ret present although the source has no return. -/
theorem c9_procedure_ret_witness :
    ∃ entry st4 st5,
      lookupSymbol c9st.symtab
        (mangledKeyFor (⟨false, "q", Option.none⟩ : SubprogramHead)) = some entry ∧
      genDeclarationsOpt Option.none
        (genArguments (Option.none : Option (List ParameterDeclaration))
          { emitLabel (emitI { c9st with currentSubprogramEntry := some entry }
              (Instr.jump (entry.getMangledName ++ "_end"))) entry.getMangledName with
            symtab := enterScope c9st.symtab, local_offset := 0, param_offset := 0 }) =
        .ok st4 ∧
      genStmtOpt Option.none st4 = .ok st5 ∧
      (⟨0, [[{ name := "p_q", kind := SymbolKind.PROCEDURE, mangledName := "p_q" }]],
        0, 0, Option.none,
        [Instr.jump "p_q_end", Instr.label "p_q", Instr.ret,
         Instr.label "p_q_end"]⟩ : GenSt) =
        { emitLabel (emitI st5 Instr.ret) (entry.getMangledName ++ "_end") with
          symtab := exitScope st5.symtab,
          currentSubprogramEntry := c9st.currentSubprogramEntry } :=
  c9_procedure_ret ⟨⟨false, "q", Option.none⟩, Option.none, Option.none⟩ c9st
    ⟨0, [[{ name := "p_q", kind := SymbolKind.PROCEDURE, mangledName := "p_q" }]],
      0, 0, Option.none,
      [Instr.jump "p_q_end", Instr.label "p_q", Instr.ret, Instr.label "p_q_end"]⟩
    rfl rfl


theorem head_of_append {a : String} (b : String) {c : Char}
    (h : a.data.head? = some c) : (a ++ b).data.head? = some c := by
  rw [String.data_append]
  cases hd : a.data with
  | nil => exact absurd h (by simp [hd])
  | cons x xs =>
    rw [hd] at h
    simpa using h

theorem head_ctrLabel (p : String) (n : Nat) :
    (ctrLabel p n).data.head? = some 'L' := by
  rw [ctrLabel_form]
  apply head_of_append
  apply head_of_append
  apply head_of_append
  rfl

theorem ne_of_head {a b : String} {c d : Char} (ha : a.data.head? = some c)
    (hb : b.data.head? = some d) (hcd : c ≠ d) : a ≠ b := by
  intro h
  subst h
  rw [ha] at hb
  exact hcd (Option.some.inj hb)

theorem head_ne_ctr {s : String}
    (h : s.data.head? = some 'f' ∨ s.data.head? = some 'p')
    (p : String) (n : Nat) : s ≠ ctrLabel p n := by
  cases h with
  | inl h => exact ne_of_head h (head_ctrLabel p n) (by decide)
  | inr h => exact ne_of_head h (head_ctrLabel p n) (by decide)

theorem head_ne_main {s : String}
    (h : s.data.head? = some 'f' ∨ s.data.head? = some 'p') :
    s ≠ "main_entry" := by
  cases h with
  | inl h => exact ne_of_head h rfl (by decide)
  | inr h => exact ne_of_head h rfl (by decide)

theorem main_ne_ctr (p : String) (n : Nat) : "main_entry" ≠ ctrLabel p n :=
  ne_of_head rfl (head_ctrLabel p n) (by decide)

theorem head_append_end {m : String}
    (h : m.data.head? = some 'f' ∨ m.data.head? = some 'p') :
    (m ++ "_end").data.head? = some 'f' ∨ (m ++ "_end").data.head? = some 'p' := by
  cases h with
  | inl h => exact Or.inl (head_of_append _ h)
  | inr h => exact Or.inr (head_of_append _ h)

theorem str_append_right_cancel {a b : String} {s : String}
    (h : a ++ s = b ++ s) : a = b := by
  have hd := congrArg String.data h
  rw [String.data_append, String.data_append] at hd
  exact String.ext (List.append_cancel_right hd)

theorem str_ne_self_append_end (m : String) : ¬ m = m ++ "_end" := by
  intro h
  have hd := congrArg String.data h
  rw [String.data_append] at hd
  have := congrArg List.length hd
  simp at this

/-- The mangled names of the subprogram entries a declaration list
resolves against a scope stack, in order; none when some key misses. -/
def subMangled (tab : List (List SymbolEntry)) :
    List SubprogramDeclaration → Option (List String)
  | [] => some []
  | d :: rest =>
    match lookupSymbol tab (mangledKeyFor d.head) with
    | Option.none => Option.none
    | some e =>
      match subMangled tab rest with
      | Option.none => Option.none
      | some ms => some (e.mangledName :: ms)

/-- The null-guarded variant for the optional subprogram list. -/
def subMangledOpt (tab : List (List SymbolEntry)) :
    Option (List SubprogramDeclaration) → Option (List String)
  | Option.none => some []
  | some l => subMangled tab l

/-- The label layout of a sequence of subprogram blocks generated over
the counter interval [a, b): per block the entry label (its mangled
name), some interval of counter labels, and the end label, blocks in
order with adjacent counter intervals. -/
def SubsLab : Nat → Nat → List String → List String → Prop
  | a, b, [], L => a ≤ b ∧ L = []
  | a, b, m :: ms, L =>
    ∃ c B L', LB a c B ∧ SubsLab c b ms L' ∧
      L = m :: (B ++ (m ++ "_end") :: L')

theorem subsLab_le : ∀ (ms : List String) (a b : Nat) (L : List String),
    SubsLab a b ms L → a ≤ b := by
  intro ms
  induction ms with
  | nil => intro a b L h; exact h.1
  | cons m ms ih =>
    intro a b L h
    obtain ⟨c, B, L', hB, hSL, _⟩ := h
    exact le_trans hB.1 (ih c b L' hSL)

theorem subsLab_mem : ∀ (ms : List String) (a b : Nat) (L : List String),
    SubsLab a b ms L → ∀ s ∈ L,
      s ∈ ms ∨ (∃ m ∈ ms, s = m ++ "_end") ∨
      (∃ p n, p ∈ ctrPrefixes ∧ a ≤ n ∧ n < b ∧ s = ctrLabel p n) := by
  intro ms
  induction ms with
  | nil =>
    intro a b L h s hs
    rw [h.2] at hs
    exact absurd hs (by simp)
  | cons m ms ih =>
    intro a b L h s hs
    obtain ⟨c, B, L', hB, hSL, rfl⟩ := h
    have hcb : c ≤ b := subsLab_le ms c b L' hSL
    rcases List.mem_cons.mp hs with rfl | hs
    · exact Or.inl (by simp)
    rcases List.mem_append.mp hs with hsB | hs
    · obtain ⟨p, n, hp, he, h1, h2⟩ := hB.2.1 s hsB
      exact Or.inr (Or.inr ⟨p, n, hp, h1, by omega, he⟩)
    rcases List.mem_cons.mp hs with rfl | hs
    · exact Or.inr (Or.inl ⟨m, by simp, rfl⟩)
    rcases ih c b L' hSL s hs with h | h | ⟨p, n, hp, h1, h2, he⟩
    · exact Or.inl (List.mem_cons_of_mem m h)
    · obtain ⟨m', hm', he⟩ := h
      exact Or.inr (Or.inl ⟨m', List.mem_cons_of_mem m hm', he⟩)
    · exact Or.inr (Or.inr ⟨p, n, hp, by have := hB.1; omega, h2, he⟩)

theorem genSubprogramDeclarations_spec :
    ∀ (l : List SubprogramDeclaration) (st st' : GenSt),
      genSubprogramDeclarations l st = .ok st' →
      st'.symtab = st.symtab ∧
      ∃ ms Δ, subMangled st.symtab l = some ms ∧ st'.code = st.code ++ Δ ∧
        SubsLab st.labelCounter st'.labelCounter ms (labelsOf Δ) := by
  intro l
  induction l with
  | nil =>
    intro st st' h
    cases h
    exact ⟨rfl, [], [], rfl, by simp, le_refl _, rfl⟩
  | cons d rest ih =>
    intro st st' h
    simp only [genSubprogramDeclarations, bind, Except.bind] at h
    split at h
    · exact Except.noConfusion h
    · rename_i st1 h1
      obtain ⟨e, Δ1, B, hlk, hsym1, _, hcode1, hLB, hlab⟩ :=
        genSubprogramDeclaration_ok h1
      obtain ⟨hsym2, ms, Δ2, hsub2, hcode2, hSL⟩ := ih st1 st' h
      refine ⟨by rw [hsym2, hsym1], e.mangledName :: ms, Δ1 ++ Δ2, ?_, ?_, ?_⟩
      · simp only [subMangled, hlk]
        rw [hsym1] at hsub2
        rw [hsub2]
      · rw [hcode2, hcode1, List.append_assoc]
      · refine ⟨st1.labelCounter, B, labelsOf Δ2, hLB, hSL, ?_⟩
        rw [labelsOf_append, hlab]
        simp

theorem genSubprogramDeclarationsOpt_spec :
    ∀ (o : Option (List SubprogramDeclaration)) (st st' : GenSt),
      genSubprogramDeclarationsOpt o st = .ok st' →
      st'.symtab = st.symtab ∧
      ∃ ms Δ, subMangledOpt st.symtab o = some ms ∧ st'.code = st.code ++ Δ ∧
        SubsLab st.labelCounter st'.labelCounter ms (labelsOf Δ) := by
  intro o st st' h
  cases o with
  | none =>
    cases h
    exact ⟨rfl, [], [], rfl, by simp, le_refl _, rfl⟩
  | some l => exact genSubprogramDeclarations_spec l st st' h

theorem subsLab_main_nodup :
    ∀ (ms : List String) (a b : Nat) (L : List String),
      SubsLab a b ms L →
      ∀ (d : Nat) (Bm : List String), LB b d Bm →
      ms.Nodup →
      (∀ m ∈ ms, ∀ m2 ∈ ms, ¬ m = m2 ++ "_end") →
      (∀ m ∈ ms, m.data.head? = some 'f' ∨ m.data.head? = some 'p') →
      (L ++ "main_entry" :: Bm).Nodup := by
  intro ms
  induction ms with
  | nil =>
    intro a b L hSL d Bm hBm _ _ _
    rw [hSL.2]
    simp only [List.nil_append, List.nodup_cons]
    refine ⟨?_, hBm.2.2⟩
    intro hmem
    obtain ⟨p, n, hp, he, _, _⟩ := hBm.2.1 _ hmem
    exact main_ne_ctr p n he
  | cons m ms ih =>
    intro a b L hSL d Bm hBm hnd hne hhd
    obtain ⟨c, B, L2, hB, hSL2, rfl⟩ := hSL
    have hcb : c ≤ b := subsLab_le ms c b L2 hSL2
    have hmhd : m.data.head? = some 'f' ∨ m.data.head? = some 'p' :=
      hhd m (by simp)
    have hmnotms : m ∉ ms := (List.nodup_cons.mp hnd).1
    have hndms : ms.Nodup := (List.nodup_cons.mp hnd).2
    simp only [List.cons_append, List.append_assoc, List.cons_append]
    rw [List.nodup_cons]
    constructor
    · -- m does not occur anywhere to its right
      intro hmem
      rcases List.mem_append.mp hmem with hmB | hmem
      · obtain ⟨p, n, hp, he, _, _⟩ := hB.2.1 m hmB
        exact head_ne_ctr hmhd p n he
      rcases List.mem_cons.mp hmem with hm | hmem
      · exact hne m (by simp) m (by simp) hm
      rcases List.mem_append.mp hmem with hmL | hmem
      · rcases subsLab_mem ms c b L2 hSL2 m hmL with h | ⟨m2, hm2, he⟩ |
          ⟨p, n, hp, _, _, he⟩
        · exact hmnotms h
        · exact hne m (by simp) m2 (List.mem_cons_of_mem m hm2) he
        · exact head_ne_ctr hmhd p n he
      rcases List.mem_cons.mp hmem with hm | hmem
      · exact head_ne_main hmhd hm
      · obtain ⟨p, n, hp, he, _, _⟩ := hBm.2.1 m hmem
        exact head_ne_ctr hmhd p n he
    · -- B ++ (m_end :: (L2 ++ main :: Bm)) is duplicate-free
      refine List.Nodup.append hB.2.2 ?_ ?_
      · -- m_end :: (L2 ++ main :: Bm)
        rw [List.nodup_cons]
        constructor
        · intro hmem
          rcases List.mem_append.mp hmem with hmL | hmem
          · rcases subsLab_mem ms c b L2 hSL2 _ hmL with h | ⟨m2, hm2, he⟩ |
              ⟨p, n, hp, _, _, he⟩
            · exact hne (m ++ "_end") (List.mem_cons_of_mem m h) m (by simp) rfl
            · exact hmnotms (str_append_right_cancel he ▸ hm2)
            · exact head_ne_ctr (head_append_end hmhd) p n he
          rcases List.mem_cons.mp hmem with hm | hmem
          · exact head_ne_main (head_append_end hmhd) hm
          · obtain ⟨p, n, hp, he, _, _⟩ := hBm.2.1 _ hmem
            exact head_ne_ctr (head_append_end hmhd) p n he
        · exact ih c b L2 hSL2 d Bm hBm hndms
            (fun x hx y hy => hne x (List.mem_cons_of_mem m hx) y
              (List.mem_cons_of_mem m hy))
            (fun x hx => hhd x (List.mem_cons_of_mem m hx))
      · -- labels of B meet nothing to their right
        intro x hxB hmem
        obtain ⟨p, n, hp, hex, hn1, hn2⟩ := hB.2.1 x hxB
        rcases List.mem_cons.mp hmem with hx | hmem
        · exact head_ne_ctr (head_append_end hmhd) p n (hx ▸ hex)
        rcases List.mem_append.mp hmem with hxL | hmem
        · rcases subsLab_mem ms c b L2 hSL2 x hxL with h | ⟨m2, hm2, he⟩ |
            ⟨q, n2, hq, hq1, hq2, he⟩
          · exact head_ne_ctr (hhd x (List.mem_cons_of_mem m h)) p n hex
          · exact head_ne_ctr
              (head_append_end (hhd m2 (List.mem_cons_of_mem m hm2))) p n
              (he ▸ hex)
          · have := ctrLabel_inj hp hq (hex ▸ he)
            omega
        rcases List.mem_cons.mp hmem with hx | hmem
        · exact main_ne_ctr p n (hx ▸ hex)
        · obtain ⟨q, n2, hq, he2, hm1, hm2⟩ := hBm.2.1 x hmem
          have := ctrLabel_inj hp hq (hex ▸ he2)
          omega

theorem c4_pipeline :
    ∀ (o : Option (List SubprogramDeclaration)) (dcl : Option Declarations)
      (mn : Option Stmt) (st2 st3 st5 st6 st2' : GenSt) (M : List String),
      labelsOf st2.code = [] →
      subMangledOpt st2.symtab o = some M →
      M.Nodup →
      (∀ m ∈ M, ∀ m2 ∈ M, ¬ m = m2 ++ "_end") →
      (∀ m ∈ M, m.data.head? = some 'f' ∨ m.data.head? = some 'p') →
      genSubprogramDeclarationsOpt o st2 = .ok st3 →
      genDeclarationsOpt dcl (emitLabel st3 "main_entry") = .ok st5 →
      genStmtOpt mn st5 = .ok st6 →
      st2' = emitI st6 Instr.stop →
      (labelsOf st2'.code).Nodup := by
  intro o dcl mn st2 st3 st5 st6 st2' M h2lab hM hnd hne hhd h3 h5 h6 hst'
  obtain ⟨hsym3, ms, Δs, hms, hcode3, hSL⟩ :=
    genSubprogramDeclarationsOpt_spec o st2 st3 h3
  have hmsM : ms = M := by
    rw [hms] at hM
    exact Option.some.inj hM
  subst hmsM
  obtain ⟨Δd, hd1, hd0⟩ := genDeclarationsOpt_ok dcl _ st5 h5
  obtain ⟨Δm, hm1, hmLB⟩ := genStmtOpt_ok mn st5 st6 h6
  have h5lc : st5.labelCounter = st3.labelCounter := by rw [hd1]; rfl
  have h5code : st5.code = (st3.code ++ [Instr.label "main_entry"]) ++ Δd := by
    rw [hd1]; rfl
  have h6code : st6.code = st5.code ++ Δm := by rw [hm1]; rfl
  have hfin : labelsOf st2'.code = labelsOf Δs ++ "main_entry" :: labelsOf Δm := by
    rw [hst']
    show labelsOf (st6.code ++ [Instr.stop]) = _
    rw [h6code, h5code, hcode3]
    simp only [labelsOf_append, hd0, h2lab]
    simp [labelsOf]
  rw [hfin]
  rw [h5lc] at hmLB
  exact subsLab_main_nodup ms st2.labelCounter st3.labelCounter (labelsOf Δs) hSL
    st6.labelCounter (labelsOf Δm) hmLB hnd hne hhd

/-- Claim C4 (amended): in a successful whole-program run started with
an empty stream, all emitted label strings are pairwise distinct
provided the mangled names resolved for the subprogram declarations
are themselves duplicate-free, none of them is another one with the
"_end" suffix attached, and each starts with the mangling letter f or
p (as the f_/p_ scheme produces); counter labels, entry labels, end
labels and main_entry then never collide. -/
theorem c4_label_uniqueness :
    ∀ (node : ProgramNode) (st st' : GenSt) (M : List String),
      st.code = [] →
      genProgram node st = .ok st' →
      subMangledOpt st.symtab node.subprogs = some M →
      M.Nodup →
      (∀ m ∈ M, ∀ m2 ∈ M, ¬ m = m2 ++ "_end") →
      (∀ m ∈ M, m.data.head? = some 'f' ∨ m.data.head? = some 'p') →
      (labelsOf st'.code).Nodup := by
  intro node st st' M hcode hok hM hnd hne hhd
  obtain ⟨subs, decls, mainS⟩ := node
  unfold genProgram at hok
  dsimp only at hok
  simp only [bind, Except.bind] at hok
  cases subs with
  | none =>
    try dsimp only at hok
    split at hok
    · exact Except.noConfusion hok
    · rename_i st3 h3
      split at hok
      · exact Except.noConfusion hok
      · rename_i st5 h5
        split at hok
        · exact Except.noConfusion hok
        · rename_i st6 h6
          exact c4_pipeline Option.none decls mainS (emitI st Instr.start) st3 st5
            st6 st' M (by simp [emitI, labelsOf_append, hcode, labelsOf]) hM hnd
            hne hhd h3 h5 h6 (ok_inv hok)
  | some l =>
    try dsimp only at hok
    by_cases hemp : l.isEmpty = true
    · rw [if_pos hemp] at hok
      split at hok
      · exact Except.noConfusion hok
      · rename_i st3 h3
        split at hok
        · exact Except.noConfusion hok
        · rename_i st5 h5
          split at hok
          · exact Except.noConfusion hok
          · rename_i st6 h6
            exact c4_pipeline (some l) decls mainS (emitI st Instr.start) st3 st5
              st6 st' M (by simp [emitI, labelsOf_append, hcode, labelsOf]) hM hnd
              hne hhd h3 h5 h6 (ok_inv hok)
    · rw [if_neg hemp] at hok
      split at hok
      · exact Except.noConfusion hok
      · rename_i st3 h3
        split at hok
        · exact Except.noConfusion hok
        · rename_i st5 h5
          split at hok
          · exact Except.noConfusion hok
          · rename_i st6 h6
            exact c4_pipeline (some l) decls mainS
              (emitI (emitI st Instr.start) (Instr.jump "main_entry")) st3 st5
              st6 st' M (by simp [emitI, labelsOf_append, hcode, labelsOf]) hM hnd
              hne hhd h3 h5 h6 (ok_inv hok)

def c4prog : ProgramNode :=
  ⟨some [⟨⟨false, "x", Option.none⟩, Option.none, Option.none⟩,
         ⟨⟨false, "x_end", Option.none⟩, Option.none, Option.none⟩],
   Option.none, Option.none⟩

def c4st : GenSt :=
  ⟨0, [[{ name := "p_x", kind := SymbolKind.PROCEDURE, mangledName := "p_x" },
        { name := "p_x_end", kind := SymbolKind.PROCEDURE,
          mangledName := "p_x_end" }]],
   0, 0, Option.none, []⟩

def c4code : List Instr :=
  [Instr.start, Instr.jump "main_entry",
   Instr.jump "p_x_end", Instr.label "p_x", Instr.ret, Instr.label "p_x_end",
   Instr.jump "p_x_end_end", Instr.label "p_x_end", Instr.ret,
   Instr.label "p_x_end_end",
   Instr.label "main_entry", Instr.stop]

/-- Counterexample to Claim C4 as stated: the program declaring the two
procedures x and x_end (with their symbol-table entries mangled p_x and
p_x_end) generates successfully, but the label p_x_end is emitted twice
- once as the end label of x and once as the entry label of x_end - so
the emitted label strings are not pairwise distinct. -/
theorem c4_counterexample :
    genProgram c4prog c4st = .ok { c4st with code := c4code } ∧
    labelsOf c4code =
      ["p_x", "p_x_end", "p_x_end", "p_x_end_end", "main_entry"] ∧
    ¬ (["p_x", "p_x_end", "p_x_end", "p_x_end_end", "main_entry"] :
        List String).Nodup :=
  ⟨rfl, rfl, by decide⟩

def c4wprog : ProgramNode :=
  ⟨some [⟨⟨false, "y", Option.none⟩, Option.none, Option.none⟩],
   Option.none, Option.none⟩

def c4wst : GenSt :=
  ⟨0, [[{ name := "p_y", kind := SymbolKind.PROCEDURE, mangledName := "p_y" }]],
   0, 0, Option.none, []⟩

/-- Witness for C4 (amended) at a concrete one-procedure program: the
labels p_y, p_y_end and main_entry are pairwise distinct. -/
theorem c4_label_uniqueness_witness :
    (labelsOf [Instr.start, Instr.jump "main_entry", Instr.jump "p_y_end",
      Instr.label "p_y", Instr.ret, Instr.label "p_y_end",
      Instr.label "main_entry", Instr.stop]).Nodup :=
  c4_label_uniqueness c4wprog c4wst
    ⟨0, [[{ name := "p_y", kind := SymbolKind.PROCEDURE, mangledName := "p_y" }]],
      0, 0, Option.none,
      [Instr.start, Instr.jump "main_entry", Instr.jump "p_y_end",
       Instr.label "p_y", Instr.ret, Instr.label "p_y_end",
       Instr.label "main_entry", Instr.stop]⟩
    ["p_y"] rfl rfl rfl (by decide) (by decide) (by decide)

end MiniPascalCG
